import Mathlib

/-!
# Web3.js token checker: balance aggregation workflow

A shallow embedding of `src/web3-script.js`.

* The static tables `TOKEN_CONFIGS` and `NETWORKS` are finite maps; the property
  access `TOKEN_CONFIGS[network][tokenSymbol]` also finds the members that an
  object literal inherits from `Object.prototype`.
* JavaScript numbers that the script computes are non-negative IEEE-754
  binary64 values; they are modelled exactly, as a mantissa and a binary
  exponent, together with `Infinity` and `NaN`.
* The page (DOM), the two script globals and a log of the calls that the script
  issues form the `World`; every script function is a state transformer over
  it that may finish normally or with a thrown error.
* The chain client (the `Web3` object) is an arbitrary collaborator: each of
  its calls, `web3.utils.isAddress` included, either returns a value or
  throws. A `web3` that was never created is the client whose every call
  throws. An `await` is modelled as the call running to its end before the
  script goes on.
* The elements that the script reads or toggles without a null check
  (`network`, `address`, `eth`, the custom-token inputs, the three panels) are
  present; the list container `balance-list`, which only `showResults` writes,
  may be absent, and writing to it then throws.
-/

namespace TokenChecker

/-! ## JavaScript numbers -/

/-- A non-negative JavaScript number: `finite m e` is the double `m * 2 ^ e`. -/
inductive JsNumber where
  | finite (m : Nat) (e : Int)
  | infinity
  | nan
  deriving DecidableEq, Repr

/-- Quotient of `num / den` rounded to the nearest integer, ties to even. -/
def roundHalfEven (num den : Nat) : Nat :=
  let q := num / den
  let r := num % den
  if 2 * r < den then q
  else if den < 2 * r then q + 1
  else if q % 2 = 0 then q else q + 1

/-- The fraction `n / (d * 2 ^ e)` as a numerator and a denominator. -/
def scaleBy (n d : Nat) (e : Int) : Nat × Nat :=
  if 0 ≤ e then (n, d * 2 ^ e.toNat) else (n * 2 ^ (-e).toNat, d)

/-- Fuelled loop of `floorLog2`. -/
def floorLog2Aux : Nat → Nat → Nat
  | 0, _ => 0
  | fuel + 1, n => if n < 2 then 0 else floorLog2Aux fuel (n / 2) + 1

/-- Position of the leading binary digit of `n`: the `k` with
`2 ^ k ≤ n < 2 ^ (k + 1)` for positive `n`. -/
def floorLog2 (n : Nat) : Nat := floorLog2Aux n n

/-- Binary exponent of the double nearest to `n / d`: the `e` with
`2 ^ 52 ≤ n / (d * 2 ^ e) < 2 ^ 53`, not below the subnormal exponent. -/
def binaryExponent (n d : Nat) : Int :=
  let e0 : Int := (floorLog2 n : Int) - (floorLog2 d : Int) - 53
  let s := scaleBy n d e0
  let e1 := if s.1 / s.2 < 2 ^ 53 then e0 else e0 + 1
  max e1 (-1074)

/-- The double nearest to the rational `n / d` (round to nearest, ties to
even), for `0 < d`. -/
def roundToDouble (n d : Nat) : JsNumber :=
  if n = 0 then .finite 0 (-1074)
  else
    let e := binaryExponent n d
    let s := scaleBy n d e
    let m := roundHalfEven s.1 s.2
    let me : Nat × Int := if m = 2 ^ 53 then (2 ^ 52, e + 1) else (m, e)
    if 971 < me.2 then .infinity else .finite me.1 me.2

/-- Division of two non-negative doubles. -/
def JsNumber.div : JsNumber → JsNumber → JsNumber
  | .nan, _ => .nan
  | _, .nan => .nan
  | .infinity, .infinity => .nan
  | .infinity, .finite _ _ => .infinity
  | .finite _ _, .infinity => .finite 0 (-1074)
  | .finite m1 e1, .finite m2 e2 =>
    if m2 = 0 then (if m1 = 0 then .nan else .infinity)
    else
      let s := scaleBy m1 m2 (e2 - e1)
      roundToDouble s.1 s.2

/-- Model of `parseFloat` on the decimal text of a non-negative integer. -/
def parseFloatNat (a : Nat) : JsNumber := roundToDouble a 1

/-- Model of `Math.pow(10, d)` for a non-negative integer `d`, taken as
correctly rounded (it is exact for `d ≤ 22`). -/
def pow10 (d : Nat) : JsNumber := roundToDouble (10 ^ d) 1

/-- Whether the double `m * 2 ^ e` is at least the natural number `b`. -/
def geNat (m : Nat) (e : Int) (b : Nat) : Bool :=
  if 0 ≤ e then decide (b ≤ m * 2 ^ e.toNat) else decide (b * 2 ^ (-e).toNat ≤ m)

/-- The integer `n` for which `n / 10 ^ f - x` is closest to zero, the larger
one when there are two, for the double `x = m * 2 ^ e`. -/
def nearestScaled (m : Nat) (e : Int) (f : Nat) : Nat :=
  if 0 ≤ e then m * 2 ^ e.toNat * 10 ^ f
  else (2 * (m * 10 ^ f) + 2 ^ (-e).toNat) / (2 * 2 ^ (-e).toNat)

/-- Number of decimal digits of a positive natural number. -/
def decimalLength (x : Nat) : Nat := (Nat.toDigits 10 x).length

/-- Candidates `(k, n, s)` of `Number::toString` for the integer-valued double
`m * 2 ^ e = x`: `s` has `k` digits and `s * 10 ^ (n - k)` reads back as the
same double. -/
def shortestCandidates (m : Nat) (e : Int) (x k : Nat) : List (Nat × Nat × Nat) :=
  let len := decimalLength x
  ([len, len + 1].flatMap fun n =>
    [x / 10 ^ (n - k), x / 10 ^ (n - k) + 1].map fun s => (k, n, s)).filter
    fun c => decide (10 ^ (k - 1) ≤ c.2.2) && decide (c.2.2 < 10 ^ k) &&
      decide (roundToDouble (c.2.2 * 10 ^ (c.2.1 - k)) 1 = .finite m e)

/-- Distance between two natural numbers. -/
def natDist (a b : Nat) : Nat := (a - b) + (b - a)

/-- The candidate whose value is closest to `x`. -/
def closestCandidate (x : Nat) : List (Nat × Nat × Nat) → Option (Nat × Nat × Nat)
  | [] => none
  | c :: cs =>
    match closestCandidate x cs with
    | none => some c
    | some c2 =>
      if natDist (c.2.2 * 10 ^ (c.2.1 - c.1)) x ≤ natDist (c2.2.2 * 10 ^ (c2.2.1 - c2.1)) x
      then some c else some c2

/-- Search for the least digit count `k` (from `k` upwards) that has a
candidate. -/
def shortestDigits (m : Nat) (e : Int) (x : Nat) : Nat → Nat → Option (Nat × Nat × Nat)
  | 0, _ => none
  | fuel + 1, k =>
    match closestCandidate x (shortestCandidates m e x k) with
    | some c => some c
    | none => shortestDigits m e x fuel (k + 1)

/-- Model of `Number::toString` for a double `m * 2 ^ e` that is at least
`10 ^ 21` (an integer with at least 22 digits): exponential notation with the
shortest digit string that reads back as the same double. -/
def toStringLarge (m : Nat) (e : Int) : String :=
  let x := m * 2 ^ e.toNat
  match shortestDigits m e x 17 1 with
  | none => "NaN"
  | some (_, n, s) =>
    match Nat.toDigits 10 s with
    | [] => "NaN"
    | [c] => String.mk (c :: 'e' :: '+' :: Nat.toDigits 10 (n - 1))
    | c :: cs => String.mk (c :: '.' :: cs ++ 'e' :: '+' :: Nat.toDigits 10 (n - 1))

/-- Model of `Number.prototype.toFixed(f)` on a non-negative number. -/
def toFixed (x : JsNumber) (f : Nat) : String :=
  match x with
  | .nan => "NaN"
  | .infinity => "Infinity"
  | .finite m e =>
    if geNat m e (10 ^ 21) then toStringLarge m e
    else
      let n := nearestScaled m e f
      let ds := if n = 0 then ['0'] else Nat.toDigits 10 n
      let ds := if ds.length ≤ f then List.replicate (f + 1 - ds.length) '0' ++ ds else ds
      if f = 0 then String.mk ds
      else String.mk (ds.take (ds.length - f) ++ '.' :: ds.drop (ds.length - f))

/-- The scaling of `getTokenBalance` and `getCustomTokenBalance`:
`parseFloat(balanceWei) / Math.pow(10, d)`. -/
def tokenQuotient (balanceWei d : Nat) : JsNumber :=
  (parseFloatNat balanceWei).div (pow10 d)

/-- The scaling and formatting of `getTokenBalance` and
`getCustomTokenBalance`: `(parseFloat(balanceWei) / Math.pow(10, d)).toFixed(6)`. -/
def formatUnits (balanceWei d : Nat) : String :=
  toFixed (tokenQuotient balanceWei d) 6

/-- The natural number that a list of decimal digit characters denotes. -/
def digitsValue : List Char → Nat
  | [] => 0
  | c :: cs => (c.toNat - 48) * 10 ^ cs.length + digitsValue cs

/-! ## Strings -/

/-- The code points that `String.prototype.trim` removes: ECMAScript
`WhiteSpace` and `LineTerminator`. -/
def isJsWhitespace (c : Char) : Bool :=
  let n := c.toNat
  n = 0x9 || n = 0xA || n = 0xB || n = 0xC || n = 0xD || n = 0x20 || n = 0xA0 ||
  n = 0x1680 || (0x2000 ≤ n && n ≤ 0x200A) || n = 0x2028 || n = 0x2029 ||
  n = 0x202F || n = 0x205F || n = 0x3000 || n = 0xFEFF

/-- Model of `String.prototype.trim`. -/
def jsTrim (s : String) : String :=
  String.mk ((s.data.dropWhile isJsWhitespace).reverse.dropWhile isJsWhitespace).reverse

/-- Model of `String.prototype.toUpperCase` on the ASCII identifiers the script
applies it to. -/
def toUpperCase (s : String) : String := String.mk (s.data.map Char.toUpper)

/-! ## Static tables -/

/-- The keys of `NETWORKS` and of `TOKEN_CONFIGS`. -/
inductive Network where
  | ethereum
  | polygon
  | base
  deriving DecidableEq, Repr

/-- An entry of `TOKEN_CONFIGS[network]`. -/
structure TokenConfig where
  address : String
  decimals : Nat
  deriving DecidableEq, Repr

/-- The table `TOKEN_CONFIGS`, as the finite map of its own keys; `none` is a
key that is absent (a falsy lookup). -/
def TOKEN_CONFIGS : Network → String → Option TokenConfig
  | .ethereum, "USDT" => some ⟨"0xdAC17F958D2ee523a2206206994597C13D831ec7", 6⟩
  | .ethereum, "USDC" => some ⟨"0xA0b86a33E6441f8bd88425Cdc8efEf9B9b5D6fE1", 6⟩
  | .ethereum, "DAI" => some ⟨"0x6B175474E89094C44Da98b954EedeAC495271d0F", 18⟩
  | .polygon, "USDT" => some ⟨"0xc2132D05D31c914a87C6611C10748AEb04B58e8F", 6⟩
  | .polygon, "USDC" => some ⟨"0x2791Bca1f2de4661ED88A30C99A7a9449Aa84174", 6⟩
  | .base, "USDC" => some ⟨"0x833589fcd6eDb6E08f4c7C32D4f71b54bdA02913", 6⟩
  | _, _ => none

/-- The names of the members that every object literal inherits from
`Object.prototype`. -/
def objectPrototypeMembers : List String :=
  ["constructor", "__defineGetter__", "__defineSetter__", "hasOwnProperty",
    "__lookupGetter__", "__lookupSetter__", "isPrototypeOf", "propertyIsEnumerable",
    "toString", "valueOf", "__proto__", "toLocaleString"]

/-- The value of the property access `TOKEN_CONFIGS[network][tokenSymbol]`: an
entry of the table, a member inherited from `Object.prototype` (a function or
an object, whose `address` and `decimals` are `undefined`), or `undefined`. -/
inductive ConfigLookup where
  | entry (tokenConfig : TokenConfig)
  | inherited
  | undefined
  deriving DecidableEq, Repr

/-- Model of the property access `TOKEN_CONFIGS[network][tokenSymbol]`. -/
def lookupTokenConfig (net : Network) (tokenSymbol : String) : ConfigLookup :=
  match TOKEN_CONFIGS net tokenSymbol with
  | some tokenConfig => .entry tokenConfig
  | none => if objectPrototypeMembers.contains tokenSymbol then .inherited else .undefined

/-- JavaScript truthiness of a looked-up value. -/
def ConfigLookup.truthy : ConfigLookup → Bool
  | .undefined => false
  | _ => true

/-- An entry of `NETWORKS`. -/
structure NetworkInfo where
  name : String
  rpc : String
  currency : String
  deriving DecidableEq, Repr

/-- The table `NETWORKS`. -/
def NETWORKS : Network → NetworkInfo
  | .ethereum => ⟨"Ethereum Mainnet",
      "https://mainnet.infura.io/v3/c7646448da474d328123576232a8c192", "ETH"⟩
  | .polygon => ⟨"Polygon",
      "https://polygon-mainnet.infura.io/v3/c7646448da474d328123576232a8c192", "MATIC"⟩
  | .base => ⟨"Base",
      "https://base-mainnet.infura.io/v3/c7646448da474d328123576232a8c192", "ETH"⟩

/-! ## The world: page, globals, chain client, call log -/

/-- An element of the `balances` array: `{symbol, balance, type}`. -/
structure BalanceEntry where
  symbol : String
  balance : String
  type : String
  deriving DecidableEq, Repr

/-- The `Web3` object. Every call either returns (resolves to) a value or
throws (rejects) with an error text. `isAddress` is `web3.utils.isAddress`;
`balanceOf contract owner` stands for
`new web3.eth.Contract(ERC20_ABI, contract).methods.balanceOf(owner).call()`,
`decimals contract` for the `decimals()` call of the same contract, and
`balanceOfUnset owner` for the `balanceOf` call of a contract object created
with an `undefined` address. -/
structure ChainClient where
  isAddress : String → Except String Bool
  getBalance : String → Except String Nat
  balanceOf : String → String → Except String Nat
  decimals : String → Except String Nat
  balanceOfUnset : String → Except String Nat

/-- What the script reads and writes in the document. A token checkbox is
looked up by id and may be absent (`none`); `hidden` flags are the presence of
the CSS class `hidden`; `balanceList` is the `innerHTML` of the element
`balance-list`, `none` when there is no such element. -/
structure Page where
  network : Network
  address : String
  eth : Bool
  usdt : Option Bool
  usdc : Option Bool
  dai : Option Bool
  customToken : String
  customSymbol : String
  resultsHidden : Bool
  errorHidden : Bool
  loadingHidden : Bool
  errorMessage : String
  balanceList : Option String

/-- Model of `document.getElementById(tokenId)` for the token checkboxes: the
`checked` flag of the element, `none` when there is no such element. -/
def Page.checkbox (p : Page) (tokenId : String) : Option Bool :=
  if tokenId = "usdt" then p.usdt
  else if tokenId = "usdc" then p.usdc
  else if tokenId = "dai" then p.dai
  else none

/-- The calls that the script issues, in the order it issues them. -/
inductive Event where
  | newWeb3 (rpc : String)
  | getBalance (address : String)
  | balanceOf (contract owner : String)
  | decimals (contract : String)
  | balanceOfUnset (owner : String)
  | showError (message : String)
  | showLoading
  | hideLoading
  | hideError
  | hideResults
  | showResults (balances : List BalanceEntry) (address : String)
  | console (level : String) (args : List String)
  deriving DecidableEq, Repr

/-- Page, script globals (`currentNetwork`, `web3`), the `Web3` constructor and
the log of issued calls. -/
structure World where
  page : Page
  currentNetwork : Network
  web3 : ChainClient
  connect : String → ChainClient
  log : List Event

/-- A JavaScript computation: it ends with a value or a thrown error, in an
updated world. -/
def Eff (α : Type) : Type := World → Except String α × World

/-- Sequencing: a thrown error skips the rest. -/
def Eff.bind {α β : Type} (m : Eff α) (f : α → Eff β) : Eff β := fun w =>
  match m w with
  | (.ok a, w1) => f a w1
  | (.error err, w1) => (.error err, w1)

instance : Monad Eff where
  pure a := fun w => (.ok a, w)
  bind := Eff.bind

/-- Model of `throw new Error(message)`. -/
def Eff.throw {α : Type} (message : String) : Eff α := fun w => (.error message, w)

/-- Model of `try { body } catch (error) { handler }`. -/
def Eff.tryCatch {α : Type} (body : Eff α) (handler : String → Eff α) : Eff α := fun w =>
  match body w with
  | (.ok a, w1) => (.ok a, w1)
  | (.error err, w1) => handler err w1

/-- Model of `try { body } finally { final }`. -/
def Eff.tryFinally {α : Type} (body : Eff α) (final : Eff Unit) : Eff α := fun w =>
  match body w with
  | (r, w1) =>
    match final w1 with
    | (.ok _, w2) => (r, w2)
    | (.error err, w2) => (.error err, w2)

/-- Model of `await Promise.all([a, b])`: both calls are issued, and the
result is the pair of values unless one of them throws. -/
def Eff.all2 {α β : Type} (a : Eff α) (b : Eff β) : Eff (α × β) := fun w =>
  match a w with
  | (ra, w1) =>
    match b w1 with
    | (rb, w2) =>
      match ra, rb with
      | .ok x, .ok y => (.ok (x, y), w2)
      | .error err, _ => (.error err, w2)
      | .ok _, .error err => (.error err, w2)

/-- The current world. -/
def getWorld : Eff World := fun w => (.ok w, w)

/-- Record an issued call. -/
def emit (ev : Event) : Eff Unit := fun w => (.ok (), { w with log := w.log ++ [ev] })

/-- Update the document. -/
def modifyPage (f : Page → Page) : Eff Unit := fun w => (.ok (), { w with page := f w.page })

/-- The call `web3.eth.getBalance(address)`. -/
def callGetBalance (address : String) : Eff Nat := fun w =>
  match w.web3.getBalance address with
  | .ok v => (.ok v, { w with log := w.log ++ [.getBalance address] })
  | .error err => (.error err, { w with log := w.log ++ [.getBalance address] })

/-- The call `contract.methods.balanceOf(owner).call()`. -/
def callBalanceOf (contract owner : String) : Eff Nat := fun w =>
  match w.web3.balanceOf contract owner with
  | .ok v => (.ok v, { w with log := w.log ++ [.balanceOf contract owner] })
  | .error err => (.error err, { w with log := w.log ++ [.balanceOf contract owner] })

/-- The call `contract.methods.balanceOf(owner).call()` on a contract object
created with an `undefined` address. -/
def callBalanceOfUnset (owner : String) : Eff Nat := fun w =>
  match w.web3.balanceOfUnset owner with
  | .ok v => (.ok v, { w with log := w.log ++ [.balanceOfUnset owner] })
  | .error err => (.error err, { w with log := w.log ++ [.balanceOfUnset owner] })

/-- The call `contract.methods.decimals().call()`. -/
def callDecimals (contract : String) : Eff Nat := fun w =>
  match w.web3.decimals contract with
  | .ok v => (.ok v, { w with log := w.log ++ [.decimals contract] })
  | .error err => (.error err, { w with log := w.log ++ [.decimals contract] })

/-! ## The script -/

/-- `showError(message)`. -/
def showError (message : String) : Eff Unit := do
  emit (.showError message)
  modifyPage fun p => { p with errorMessage := "❌ " ++ message, errorHidden := false }

/-- `showLoading()`. -/
def showLoading : Eff Unit := do
  emit .showLoading
  modifyPage fun p => { p with loadingHidden := false }

/-- `hideResults()`. -/
def hideResults : Eff Unit := do
  emit .hideResults
  modifyPage fun p => { p with resultsHidden := true }

/-- `hideError()`. -/
def hideError : Eff Unit := do
  emit .hideError
  modifyPage fun p => { p with errorHidden := true }

/-- `hideLoading()`. -/
def hideLoading : Eff Unit := do
  emit .hideLoading
  modifyPage fun p => { p with loadingHidden := true }

/-- The markup that `showResults` appends for one entry. -/
def renderEntry (token : BalanceEntry) : String :=
  let statusClass := if token.type = "error" then "error-token" else "success-token"
  "\n            <div class=\"balance-item " ++ statusClass ++ "\">" ++
  "\n                <span class=\"token-symbol\">" ++ token.symbol ++ "</span>" ++
  "\n                <span class=\"token-balance\">" ++ token.balance ++ "</span>" ++
  "\n                <span class=\"token-type\">(" ++ token.type ++ ")</span>" ++
  "\n            </div>\n        "

/-- `showResults(balances, address)`. The assignment to
`balanceList.innerHTML` throws when the element `balance-list` is absent. -/
def showResults (balances : List BalanceEntry) (address : String) : Eff Unit := do
  emit (.showResults balances address)
  let w ← getWorld
  let html := balances.foldl (fun html token => html ++ renderEntry token)
    ("<div class=\"address-info\">Address: " ++ address ++ "</div>")
  match w.page.balanceList with
  | none => Eff.throw "TypeError: Cannot set properties of null"
  | some _ => modifyPage fun p => { p with balanceList := some html, resultsHidden := false }

/-- `updateNetwork()`. -/
def updateNetwork : Eff Unit := do
  let w ← getWorld
  let selected := w.page.network
  (fun w => (.ok (), { w with currentNetwork := selected }))
  emit (.console "log" ["🔄 Switching to " ++ (NETWORKS selected).name])
  emit (.newWeb3 (NETWORKS selected).rpc)
  (fun w => (.ok (), { w with web3 := w.connect (NETWORKS selected).rpc }))
  hideResults
  hideError

/-- `getNativeBalance(address)`. `web3.utils.fromWei(balanceWei, 'ether')` is
the exact decimal text of `balanceWei / 10 ^ 18`, which `parseFloat` rounds to
the nearest double. -/
def getNativeBalance (address : String) : Eff String :=
  Eff.tryCatch
    (do
      let balanceWei ← callGetBalance address
      pure (toFixed (roundToDouble balanceWei (10 ^ 18)) 6))
    (fun error => do
      emit (.console "error" ["Native balance error:", error])
      pure "Error")

/-- `getTokenBalance(address, tokenSymbol)`. For a looked-up value that is an
inherited member, `tokenConfig.address` and `tokenConfig.decimals` are
`undefined`, so the contract object has no address and the divisor
`Math.pow(10, undefined)` is `NaN`. -/
def getTokenBalance (address tokenSymbol : String) : Eff String :=
  Eff.tryCatch
    (do
      let w ← getWorld
      match lookupTokenConfig w.currentNetwork tokenSymbol with
      | .undefined => pure "Not available"
      | .entry tokenConfig =>
        let balanceWei ← callBalanceOf tokenConfig.address address
        pure (formatUnits balanceWei tokenConfig.decimals)
      | .inherited =>
        let balanceWei ← callBalanceOfUnset address
        pure (toFixed ((parseFloatNat balanceWei).div .nan) 6))
    (fun error => do
      emit (.console "error" [tokenSymbol ++ " balance error:", error])
      pure "Error")

/-- `getCustomTokenBalance(address, tokenAddress, symbol)`. -/
def getCustomTokenBalance (address tokenAddress _symbol : String) : Eff String := do
  let w ← getWorld
  match w.web3.isAddress tokenAddress with
  | .error err => Eff.throw err
  | .ok false => Eff.throw "Invalid token contract address"
  | .ok true =>
    let r ← Eff.all2 (callBalanceOf tokenAddress address) (callDecimals tokenAddress)
    pure (formatUnits r.1 r.2)

/-- The loop `for (const tokenId of tokens)` of `checkAllBalances`, pushing
onto `balances`. -/
def checkTokens (address : String) :
    List String → List BalanceEntry → Eff (List BalanceEntry)
  | [], balances => pure balances
  | tokenId :: rest, balances => do
    let w ← getWorld
    if w.page.checkbox tokenId = some true then
      let tokenSymbol := toUpperCase tokenId
      if (lookupTokenConfig w.currentNetwork tokenSymbol).truthy then
        let tokenBalance ← getTokenBalance address tokenSymbol
        checkTokens address rest (balances ++ [⟨tokenSymbol, tokenBalance, "erc20"⟩])
      else checkTokens address rest balances
    else checkTokens address rest balances

/-- The custom-token step of `checkAllBalances`. -/
def checkCustomToken (address : String) (balances : List BalanceEntry) :
    Eff (List BalanceEntry) := do
  let w ← getWorld
  let customTokenAddress := jsTrim w.page.customToken
  let customSymbol := jsTrim w.page.customSymbol
  if customTokenAddress ≠ "" ∧ customSymbol ≠ "" then
    Eff.tryCatch
      (do
        let customBalance ← getCustomTokenBalance address customTokenAddress customSymbol
        pure (balances ++ [⟨customSymbol, customBalance, "custom"⟩]))
      (fun error => do
        emit (.console "warn" ["Custom token error:", error])
        pure (balances ++ [⟨customSymbol, "Error fetching", "error"⟩]))
  else pure balances

/-- The native-coin step of `checkAllBalances`. -/
def checkNative (address : String) (balances : List BalanceEntry) :
    Eff (List BalanceEntry) := do
  let w ← getWorld
  if w.page.eth then
    let nativeBalance ← getNativeBalance address
    pure (balances ++ [⟨(NETWORKS w.currentNetwork).currency, nativeBalance, "native"⟩])
  else pure balances

/-- `checkAllBalances()`. The two validation steps run before the `try`
block, so an error thrown by `web3.utils.isAddress` there is not caught. -/
def checkAllBalances : Eff Unit := do
  let w ← getWorld
  let address := jsTrim w.page.address
  if address = "" then
    showError "Please enter a wallet address"
  else
    match w.web3.isAddress address with
    | .error err => Eff.throw err
    | .ok false => showError "Invalid Ethereum address format"
    | .ok true =>
      showLoading
      hideError
      hideResults
      Eff.tryFinally
        (Eff.tryCatch
          (do
            let balances ← checkNative address []
            let balances ← checkTokens address ["usdt", "usdc", "dai"] balances
            let balances ← checkCustomToken address balances
            showResults balances address)
          (fun error => do
            emit (.console "error" ["❌ Error:", error])
            showError "Failed to fetch balances. Please try again."))
        hideLoading

/-! ## Observations on runs -/

/-- The calls that a computation issues when started in `w`. -/
def eventsOf {α : Type} (m : Eff α) (w : World) : List Event :=
  (m w).2.log.drop w.log.length

/-- The lists passed to `showResults`, in order. -/
def shownResults : List Event → List (List BalanceEntry)
  | [] => []
  | .showResults balances _ :: evs => balances :: shownResults evs
  | _ :: evs => shownResults evs

/-- The messages passed to `showError`, in order. -/
def shownErrors : List Event → List String
  | [] => []
  | .showError message :: evs => message :: shownErrors evs
  | _ :: evs => shownErrors evs

/-- Whether a call is a fetch: a request to the chain. -/
def Event.isFetch : Event → Bool
  | .getBalance _ => true
  | .balanceOf _ _ => true
  | .decimals _ => true
  | .balanceOfUnset _ => true
  | _ => false

/-- Whether a call is a fetch or a console message, the only calls issued
while balances are being collected. -/
def Event.isQuiet : Event → Bool
  | .getBalance _ => true
  | .balanceOf _ _ => true
  | .decimals _ => true
  | .balanceOfUnset _ => true
  | .console _ _ => true
  | _ => false

/-! ## Pure descriptions of the steps, used to state the lemmas -/

/-- The text that `getNativeBalance` returns, as a function of the client. -/
def nativeText (c : ChainClient) (address : String) : String :=
  match c.getBalance address with
  | .ok balanceWei => toFixed (roundToDouble balanceWei (10 ^ 18)) 6
  | .error _ => "Error"

/-- The calls that `getNativeBalance` issues. -/
def nativeEvents (c : ChainClient) (address : String) : List Event :=
  match c.getBalance address with
  | .ok _ => [.getBalance address]
  | .error err => [.getBalance address, .console "error" ["Native balance error:", err]]

/-- The text that `getTokenBalance` returns. -/
def tokenText (c : ChainClient) (net : Network) (address tokenSymbol : String) : String :=
  match lookupTokenConfig net tokenSymbol with
  | .undefined => "Not available"
  | .entry cfg =>
    match c.balanceOf cfg.address address with
    | .ok balanceWei => formatUnits balanceWei cfg.decimals
    | .error _ => "Error"
  | .inherited =>
    match c.balanceOfUnset address with
    | .ok balanceWei => toFixed ((parseFloatNat balanceWei).div .nan) 6
    | .error _ => "Error"

/-- The calls that `getTokenBalance` issues. -/
def tokenEvents (c : ChainClient) (net : Network) (address tokenSymbol : String) :
    List Event :=
  match lookupTokenConfig net tokenSymbol with
  | .undefined => []
  | .entry cfg =>
    match c.balanceOf cfg.address address with
    | .ok _ => [.balanceOf cfg.address address]
    | .error err => [.balanceOf cfg.address address,
        .console "error" [tokenSymbol ++ " balance error:", err]]
  | .inherited =>
    match c.balanceOfUnset address with
    | .ok _ => [.balanceOfUnset address]
    | .error err => [.balanceOfUnset address,
        .console "error" [tokenSymbol ++ " balance error:", err]]

/-- Whether the loop of `checkAllBalances` pushes an entry for `tokenId`. -/
def tokenRequested (w : World) (tokenId : String) : Bool :=
  decide (w.page.checkbox tokenId = some true) &&
    (lookupTokenConfig w.currentNetwork (toUpperCase tokenId)).truthy

/-- The entries that the loop pushes for the given ids. -/
def tokenEntries (w : World) (address : String) : List String → List BalanceEntry
  | [] => []
  | tokenId :: rest =>
    if tokenRequested w tokenId then
      ⟨toUpperCase tokenId, tokenText w.web3 w.currentNetwork address (toUpperCase tokenId),
        "erc20"⟩ :: tokenEntries w address rest
    else tokenEntries w address rest

/-- The calls that the loop issues for the given ids. -/
def tokenLoopEvents (w : World) (address : String) : List String → List Event
  | [] => []
  | tokenId :: rest =>
    if tokenRequested w tokenId then
      tokenEvents w.web3 w.currentNetwork address (toUpperCase tokenId) ++
        tokenLoopEvents w address rest
    else tokenLoopEvents w address rest

/-- The outcome of `getCustomTokenBalance`, as a function of the client. -/
def customRead (c : ChainClient) (address tokenAddress : String) : Except String String :=
  match c.isAddress tokenAddress with
  | .error err => .error err
  | .ok false => .error "Invalid token contract address"
  | .ok true =>
    match c.balanceOf tokenAddress address, c.decimals tokenAddress with
    | .ok balanceWei, .ok d => .ok (formatUnits balanceWei d)
    | .error err, _ => .error err
    | .ok _, .error err => .error err

/-- The calls that `getCustomTokenBalance` issues. -/
def customEvents (c : ChainClient) (address tokenAddress : String) : List Event :=
  match c.isAddress tokenAddress with
  | .ok true => [.balanceOf tokenAddress address, .decimals tokenAddress]
  | _ => []

/-- Whether `checkAllBalances` reads a custom token. -/
def customRequested (w : World) : Bool :=
  decide (jsTrim w.page.customToken ≠ "") && decide (jsTrim w.page.customSymbol ≠ "")

/-- The entry that the custom-token step pushes. -/
def customEntries (w : World) (address : String) : List BalanceEntry :=
  if customRequested w then
    match customRead w.web3 address (jsTrim w.page.customToken) with
    | .ok customBalance => [⟨jsTrim w.page.customSymbol, customBalance, "custom"⟩]
    | .error _ => [⟨jsTrim w.page.customSymbol, "Error fetching", "error"⟩]
  else []

/-- The calls that the custom-token step issues. -/
def customStepEvents (w : World) (address : String) : List Event :=
  if customRequested w then
    match customRead w.web3 address (jsTrim w.page.customToken) with
    | .ok _ => customEvents w.web3 address (jsTrim w.page.customToken)
    | .error err => customEvents w.web3 address (jsTrim w.page.customToken) ++
        [.console "warn" ["Custom token error:", err]]
  else []

/-- The entries that the native step pushes. -/
def nativeEntries (w : World) (address : String) : List BalanceEntry :=
  if w.page.eth then
    [⟨(NETWORKS w.currentNetwork).currency, nativeText w.web3 address, "native"⟩]
  else []

/-- The calls that the native step issues. -/
def nativeStepEvents (w : World) (address : String) : List Event :=
  if w.page.eth then nativeEvents w.web3 address else []

/-- The list that a validated run passes to `showResults`. -/
def collected (w : World) : List BalanceEntry :=
  nativeEntries w (jsTrim w.page.address) ++
    (tokenEntries w (jsTrim w.page.address) ["usdt", "usdc", "dai"] ++
      customEntries w (jsTrim w.page.address))

/-- The fetches and console messages of a validated run. -/
def collectEvents (w : World) : List Event :=
  nativeStepEvents w (jsTrim w.page.address) ++
    (tokenLoopEvents w (jsTrim w.page.address) ["usdt", "usdc", "dai"] ++
      customStepEvents w (jsTrim w.page.address))

/-- The calls of the top-level `catch` block of `checkAllBalances`, which runs
when `showResults` throws. -/
def renderFailureEvents (w : World) : List Event :=
  match w.page.balanceList with
  | none => [.console "error" ["❌ Error:", "TypeError: Cannot set properties of null"],
      .showError "Failed to fetch balances. Please try again."]
  | some _ => []

/-! ## Sample inputs -/

/-- A client that accepts 42-character addresses and answers every call on a
contract that has an address. -/
def sampleClient : ChainClient where
  isAddress := fun a => .ok (decide (a.length = 42))
  getBalance := fun _ => .ok (3 * 10 ^ 17)
  balanceOf := fun _ _ => .ok 1234567
  decimals := fun _ => .ok 6
  balanceOfUnset := fun _ => .error "This contract object has no address set"

/-- A client whose every fetch throws. -/
def failingClient : ChainClient where
  isAddress := fun a => .ok (decide (a.length = 42))
  getBalance := fun _ => .error "rpc"
  balanceOf := fun _ _ => .error "rpc"
  decimals := fun _ => .error "rpc"
  balanceOfUnset := fun _ => .error "rpc"

/-- A client that answers every call but `decimals`. -/
def noDecimalsClient : ChainClient where
  isAddress := fun a => .ok (decide (a.length = 42))
  getBalance := fun _ => .ok (3 * 10 ^ 17)
  balanceOf := fun _ _ => .ok 1234567
  decimals := fun _ => .error "rpc"
  balanceOfUnset := fun _ => .error "This contract object has no address set"

/-- The global `web3` when it was never created: every use of it throws. -/
def undefinedClient : ChainClient where
  isAddress := fun _ => .error "TypeError: Cannot read properties of undefined"
  getBalance := fun _ => .error "TypeError: Cannot read properties of undefined"
  balanceOf := fun _ _ => .error "TypeError: Cannot read properties of undefined"
  decimals := fun _ => .error "TypeError: Cannot read properties of undefined"
  balanceOfUnset := fun _ => .error "TypeError: Cannot read properties of undefined"

/-- A page with a wallet address, the native coin and the three well-known
tokens checked and no custom token. -/
def samplePage : Page where
  network := .polygon
  address := " 0x1234567890123456789012345678901234567890 "
  eth := true
  usdt := some true
  usdc := some true
  dai := some true
  customToken := ""
  customSymbol := ""
  resultsHidden := true
  errorHidden := true
  loadingHidden := true
  errorMessage := ""
  balanceList := some ""

/-- A world on Polygon with the sample page and client. -/
def sampleWorld : World where
  page := samplePage
  currentNetwork := .polygon
  web3 := sampleClient
  connect := fun _ => sampleClient
  log := []

/-- The sample world with a client whose every fetch throws. -/
def failingWorld : World where
  page := samplePage
  currentNetwork := .polygon
  web3 := failingClient
  connect := fun _ => failingClient
  log := []

/-- The sample page with a custom token filled in. -/
def customPage : Page :=
  { samplePage with
    customToken := " 0x1234567890123456789012345678901234567891"
    customSymbol := "FOO " }

/-- A world whose custom-token read fails at `decimals`. -/
def customFailWorld : World where
  page := customPage
  currentNetwork := .polygon
  web3 := noDecimalsClient
  connect := fun _ => noDecimalsClient
  log := []

/-- The sample world before `web3` is created. -/
def undefinedWeb3World : World where
  page := samplePage
  currentNetwork := .polygon
  web3 := undefinedClient
  connect := fun _ => sampleClient
  log := []

/-- The sample world with failing fetches and no `balance-list` element. -/
def noListWorld : World where
  page := { samplePage with balanceList := none }
  currentNetwork := .polygon
  web3 := failingClient
  connect := fun _ => failingClient
  log := []

/-- The page with the checkbox `tokenId` unchecked. -/
def Page.uncheck (p : Page) (tokenId : String) : Page :=
  if tokenId = "usdt" then { p with usdt := some false }
  else if tokenId = "usdc" then { p with usdc := some false }
  else if tokenId = "dai" then { p with dai := some false }
  else p

/-! ## Lemmas: running the steps -/

@[simp] theorem run_pure {α : Type} (a : α) (w : World) :
    (pure a : Eff α) w = (.ok a, w) := rfl

@[simp] theorem run_bind {α β : Type} (m : Eff α) (f : α → Eff β) (w : World) :
    (m >>= f) w = Eff.bind m f w := rfl

theorem getNativeBalance_run (address : String) (w : World) :
    getNativeBalance address w =
      (.ok (nativeText w.web3 address),
        { w with log := w.log ++ nativeEvents w.web3 address }) := by
  unfold getNativeBalance nativeText nativeEvents
  cases h : w.web3.getBalance address <;>
    simp [Eff.tryCatch, Eff.bind, callGetBalance, emit, h]

theorem getTokenBalance_run (address tokenSymbol : String) (w : World) :
    getTokenBalance address tokenSymbol w =
      (.ok (tokenText w.web3 w.currentNetwork address tokenSymbol),
        { w with log := w.log ++ tokenEvents w.web3 w.currentNetwork address tokenSymbol }) := by
  unfold getTokenBalance tokenText tokenEvents
  cases hc : lookupTokenConfig w.currentNetwork tokenSymbol with
  | undefined => simp [Eff.tryCatch, Eff.bind, getWorld, hc]
  | entry cfg =>
    cases h : w.web3.balanceOf cfg.address address <;>
      simp [Eff.tryCatch, Eff.bind, getWorld, callBalanceOf, emit, hc, h]
  | inherited =>
    cases h : w.web3.balanceOfUnset address <;>
      simp [Eff.tryCatch, Eff.bind, getWorld, callBalanceOfUnset, emit, hc, h]

theorem getCustomTokenBalance_run (address tokenAddress symbol : String) (w : World) :
    getCustomTokenBalance address tokenAddress symbol w =
      (customRead w.web3 address tokenAddress,
        { w with log := w.log ++ customEvents w.web3 address tokenAddress }) := by
  unfold getCustomTokenBalance customRead customEvents
  cases ha : w.web3.isAddress tokenAddress with
  | error err => simp [Eff.bind, getWorld, Eff.throw, ha]
  | ok accepted =>
    cases accepted
    · simp [Eff.bind, getWorld, Eff.throw, ha]
    · cases hb : w.web3.balanceOf tokenAddress address <;>
        cases hd : w.web3.decimals tokenAddress <;>
        simp [Eff.bind, getWorld, Eff.all2, callBalanceOf, callDecimals, ha, hb, hd]

theorem checkNative_run (address : String) (balances : List BalanceEntry) (w : World) :
    checkNative address balances w =
      (.ok (balances ++ nativeEntries w address),
        { w with log := w.log ++ nativeStepEvents w address }) := by
  unfold checkNative nativeEntries nativeStepEvents
  cases he : w.page.eth <;>
    simp [Eff.bind, getWorld, getNativeBalance_run, he]

theorem checkCustomToken_run (address : String) (balances : List BalanceEntry) (w : World) :
    checkCustomToken address balances w =
      (.ok (balances ++ customEntries w address),
        { w with log := w.log ++ customStepEvents w address }) := by
  unfold checkCustomToken customEntries customStepEvents customRequested
  by_cases h1 : jsTrim w.page.customToken = ""
  · simp [Eff.bind, getWorld, h1]
  · by_cases h2 : jsTrim w.page.customSymbol = ""
    · simp [Eff.bind, getWorld, h2]
    · cases hr : customRead w.web3 address (jsTrim w.page.customToken) <;>
        simp [Eff.bind, getWorld, Eff.tryCatch, getCustomTokenBalance_run, emit, h1, h2, hr]

@[simp] theorem tokenEntries_log (w : World) (l : List Event) (address : String)
    (ids : List String) :
    tokenEntries { w with log := l } address ids = tokenEntries w address ids := by
  induction ids with
  | nil => rfl
  | cons tokenId rest ih => simp [tokenEntries, tokenRequested, ih]

@[simp] theorem tokenLoopEvents_log (w : World) (l : List Event) (address : String)
    (ids : List String) :
    tokenLoopEvents { w with log := l } address ids = tokenLoopEvents w address ids := by
  induction ids with
  | nil => rfl
  | cons tokenId rest ih => simp [tokenLoopEvents, tokenRequested, ih]

theorem checkTokens_run (address : String) (ids : List String) :
    ∀ (balances : List BalanceEntry) (w : World),
      checkTokens address ids balances w =
        (.ok (balances ++ tokenEntries w address ids),
          { w with log := w.log ++ tokenLoopEvents w address ids }) := by
  induction ids with
  | nil => intro balances w; simp [checkTokens, tokenEntries, tokenLoopEvents]
  | cons tokenId rest ih =>
    intro balances w
    unfold checkTokens tokenEntries tokenLoopEvents tokenRequested
    by_cases hc : w.page.checkbox tokenId = some true
    · cases hk : (lookupTokenConfig w.currentNetwork (toUpperCase tokenId)).truthy
      · simp [Eff.bind, getWorld, hc, hk, ih]
      · simp [Eff.bind, getWorld, hc, hk, ih, getTokenBalance_run, tokenEntries,
          tokenLoopEvents, tokenRequested]
    · simp [Eff.bind, getWorld, hc, ih]

@[simp] theorem customEntries_log (w : World) (l : List Event) (address : String) :
    customEntries { w with log := l } address = customEntries w address := rfl

@[simp] theorem customStepEvents_log (w : World) (l : List Event) (address : String) :
    customStepEvents { w with log := l } address = customStepEvents w address := rfl

theorem checkAllBalances_valid_run (w : World)
    (hne : jsTrim w.page.address ≠ "")
    (hvalid : w.web3.isAddress (jsTrim w.page.address) = .ok true) :
    (checkAllBalances w).1 = .ok () ∧
    (checkAllBalances w).2.log =
      w.log ++ ([Event.showLoading, Event.hideError, Event.hideResults] ++ collectEvents w ++
        Event.showResults (collected w) (jsTrim w.page.address) ::
          (renderFailureEvents w ++ [Event.hideLoading])) ∧
    (checkAllBalances w).2.page.loadingHidden = true := by
  unfold checkAllBalances
  cases hlist : w.page.balanceList <;>
  simp [Eff.bind, getWorld, hne, hvalid, showLoading, hideError, hideResults, hideLoading,
    showResults, showError, emit, modifyPage, Eff.tryFinally, Eff.tryCatch, Eff.throw,
    checkNative_run, checkTokens_run, checkCustomToken_run, collected, collectEvents,
    nativeStepEvents, nativeEntries, tokenLoopEvents, tokenEntries, tokenRequested,
    Page.checkbox, customStepEvents, customEntries, customRequested, renderFailureEvents,
    hlist]

/-! ## Lemmas: observations -/

theorem shownResults_append (xs ys : List Event) :
    shownResults (xs ++ ys) = shownResults xs ++ shownResults ys := by
  induction xs with
  | nil => rfl
  | cons ev rest ih => cases ev <;> simp [shownResults, ih]

theorem shownErrors_append (xs ys : List Event) :
    shownErrors (xs ++ ys) = shownErrors xs ++ shownErrors ys := by
  induction xs with
  | nil => rfl
  | cons ev rest ih => cases ev <;> simp [shownErrors, ih]

theorem shownResults_quiet (xs : List Event) (h : ∀ ev ∈ xs, ev.isQuiet = true) :
    shownResults xs = [] := by
  induction xs with
  | nil => rfl
  | cons ev rest ih =>
    have hev := h ev (List.mem_cons_self _ _)
    have hrest := ih (fun x hx => h x (List.mem_cons_of_mem _ hx))
    cases ev <;> simp_all [shownResults, Event.isQuiet]

theorem shownErrors_quiet (xs : List Event) (h : ∀ ev ∈ xs, ev.isQuiet = true) :
    shownErrors xs = [] := by
  induction xs with
  | nil => rfl
  | cons ev rest ih =>
    have hev := h ev (List.mem_cons_self _ _)
    have hrest := ih (fun x hx => h x (List.mem_cons_of_mem _ hx))
    cases ev <;> simp_all [shownErrors, Event.isQuiet]

theorem nativeEvents_quiet (c : ChainClient) (address : String) :
    ∀ ev ∈ nativeEvents c address, ev.isQuiet = true := by
  intro ev hev
  unfold nativeEvents at hev
  cases h : c.getBalance address <;> simp [h] at hev <;>
    rcases hev with rfl | rfl <;> rfl

theorem tokenEvents_quiet (c : ChainClient) (net : Network) (address tokenSymbol : String) :
    ∀ ev ∈ tokenEvents c net address tokenSymbol, ev.isQuiet = true := by
  intro ev hev
  unfold tokenEvents at hev
  cases hc : lookupTokenConfig net tokenSymbol with
  | undefined => simp [hc] at hev
  | entry cfg =>
    cases h : c.balanceOf cfg.address address <;> simp [hc, h] at hev <;>
      rcases hev with rfl | rfl <;> rfl
  | inherited =>
    cases h : c.balanceOfUnset address <;> simp [hc, h] at hev <;>
      rcases hev with rfl | rfl <;> rfl

theorem tokenLoopEvents_quiet (w : World) (address : String) (ids : List String) :
    ∀ ev ∈ tokenLoopEvents w address ids, ev.isQuiet = true := by
  induction ids with
  | nil => intro ev hev; simp [tokenLoopEvents] at hev
  | cons tokenId rest ih =>
    intro ev hev
    unfold tokenLoopEvents at hev
    split at hev
    · rcases List.mem_append.mp hev with h | h
      · exact tokenEvents_quiet _ _ _ _ ev h
      · exact ih ev h
    · exact ih ev hev

theorem customStepEvents_quiet (w : World) (address : String) :
    ∀ ev ∈ customStepEvents w address, ev.isQuiet = true := by
  intro ev hev
  have hcustom : ∀ x ∈ customEvents w.web3 address (jsTrim w.page.customToken),
      x.isQuiet = true := by
    intro x hx
    unfold customEvents at hx
    split at hx
    · simp at hx
      rcases hx with rfl | rfl <;> rfl
    · simp at hx
  unfold customStepEvents at hev
  split at hev
  · split at hev
    · exact hcustom ev hev
    · rcases List.mem_append.mp hev with h | h
      · exact hcustom ev h
      · simp at h
        subst h
        rfl
  · simp at hev

theorem collectEvents_quiet (w : World) : ∀ ev ∈ collectEvents w, ev.isQuiet = true := by
  intro ev hev
  unfold collectEvents at hev
  rcases List.mem_append.mp hev with h | h
  · unfold nativeStepEvents at h
    split at h
    · exact nativeEvents_quiet _ _ ev h
    · simp at h
  · rcases List.mem_append.mp h with h | h
    · exact tokenLoopEvents_quiet _ _ _ ev h
    · exact customStepEvents_quiet _ _ ev h

theorem eventsOf_valid (w : World)
    (hne : jsTrim w.page.address ≠ "")
    (hvalid : w.web3.isAddress (jsTrim w.page.address) = .ok true) :
    eventsOf checkAllBalances w =
      [Event.showLoading, Event.hideError, Event.hideResults] ++ collectEvents w ++
        Event.showResults (collected w) (jsTrim w.page.address) ::
          (renderFailureEvents w ++ [Event.hideLoading]) := by
  unfold eventsOf
  rw [(checkAllBalances_valid_run w hne hvalid).2.1, List.drop_left]

theorem shownResults_renderFailure (w : World) :
    shownResults (renderFailureEvents w ++ [Event.hideLoading]) = [] := by
  unfold renderFailureEvents
  cases w.page.balanceList <;> rfl

theorem shownResults_valid (w : World)
    (hne : jsTrim w.page.address ≠ "")
    (hvalid : w.web3.isAddress (jsTrim w.page.address) = .ok true) :
    shownResults (eventsOf checkAllBalances w) = [collected w] := by
  rw [eventsOf_valid w hne hvalid, shownResults_append, shownResults_append,
    shownResults_quiet _ (collectEvents_quiet w)]
  simp [shownResults, shownResults_renderFailure]

/-- The upper-cased ids of the well-known tokens are not names of inherited
members, so their lookup is an entry of the table or `undefined`. -/
theorem wellKnown_not_inherited :
    ∀ tokenId ∈ ["usdt", "usdc", "dai"],
      objectPrototypeMembers.contains (toUpperCase tokenId) = false := by
  decide

theorem lookup_truthy (net : Network) (tokenSymbol : String)
    (h : objectPrototypeMembers.contains tokenSymbol = false) :
    (lookupTokenConfig net tokenSymbol).truthy = (TOKEN_CONFIGS net tokenSymbol).isSome := by
  unfold lookupTokenConfig
  cases hc : TOKEN_CONFIGS net tokenSymbol with
  | none => rw [if_neg (by rw [h]; decide)]; rfl
  | some cfg => rfl

theorem tokenEntries_length (w : World) (address : String) (ids : List String)
    (hids : ∀ tokenId ∈ ids, objectPrototypeMembers.contains (toUpperCase tokenId) = false) :
    (tokenEntries w address ids).length =
      ids.countP (fun tokenId => decide (w.page.checkbox tokenId = some true) &&
        (TOKEN_CONFIGS w.currentNetwork (toUpperCase tokenId)).isSome) := by
  induction ids with
  | nil => rfl
  | cons tokenId rest ih =>
    have hhead := lookup_truthy w.currentNetwork _ (hids tokenId (List.mem_cons_self _ _))
    have ih := ih (fun x hx => hids x (List.mem_cons_of_mem _ hx))
    unfold tokenEntries tokenRequested
    rw [List.countP_cons, hhead]
    split <;> simp_all

theorem tokenEntries_tags (w : World) (address : String) (ids : List String)
    (hids : ∀ tokenId ∈ ids, objectPrototypeMembers.contains (toUpperCase tokenId) = false) :
    (tokenEntries w address ids).map (fun b => (b.symbol, b.type)) =
      (ids.filter (fun tokenId => decide (w.page.checkbox tokenId = some true) &&
        (TOKEN_CONFIGS w.currentNetwork (toUpperCase tokenId)).isSome)).map
        (fun tokenId => (toUpperCase tokenId, "erc20")) := by
  induction ids with
  | nil => rfl
  | cons tokenId rest ih =>
    have hhead := lookup_truthy w.currentNetwork _ (hids tokenId (List.mem_cons_self _ _))
    have ih := ih (fun x hx => hids x (List.mem_cons_of_mem _ hx))
    unfold tokenEntries tokenRequested
    rw [List.filter_cons, hhead]
    split <;> simp_all

/-! ## The claims -/

/-- C1: for a wallet address that passes validation, on any network and for any
checkbox states and custom-token fields, `checkAllBalances` calls `showResults`
once, with a list whose length is (1 if the native checkbox is checked) +
(the number of ids among usdt, usdc, dai that are checked and have an entry in
`TOKEN_CONFIGS` for the current network) + (1 if the trimmed custom token
address and symbol are both non-empty), whatever the chain client answers. -/
theorem result_list_length (w : World)
    (hne : jsTrim w.page.address ≠ "")
    (hvalid : w.web3.isAddress (jsTrim w.page.address) = .ok true) :
    ∃ balances, shownResults (eventsOf checkAllBalances w) = [balances] ∧
      balances.length =
        (if w.page.eth = true then 1 else 0) +
        ["usdt", "usdc", "dai"].countP (fun tokenId =>
          decide (w.page.checkbox tokenId = some true) &&
            (TOKEN_CONFIGS w.currentNetwork (toUpperCase tokenId)).isSome) +
        (if jsTrim w.page.customToken ≠ "" ∧ jsTrim w.page.customSymbol ≠ "" then 1 else 0) := by
  refine ⟨collected w, shownResults_valid w hne hvalid, ?_⟩
  have hn : (nativeEntries w (jsTrim w.page.address)).length =
      if w.page.eth = true then 1 else 0 := by
    unfold nativeEntries; split <;> rfl
  have hc : (customEntries w (jsTrim w.page.address)).length =
      if jsTrim w.page.customToken ≠ "" ∧ jsTrim w.page.customSymbol ≠ "" then 1 else 0 := by
    unfold customEntries customRequested
    by_cases h1 : jsTrim w.page.customToken = ""
    · simp [h1]
    · by_cases h2 : jsTrim w.page.customSymbol = ""
      · simp [h2]
      · cases hr : customRead w.web3 (jsTrim w.page.address) (jsTrim w.page.customToken) <;>
          simp [h1, h2]
  unfold collected
  rw [List.length_append, List.length_append, hn, hc,
    tokenEntries_length _ _ _ wellKnown_not_inherited, Nat.add_assoc]

theorem result_list_length_witness :
    ∃ balances, shownResults (eventsOf checkAllBalances sampleWorld) = [balances] ∧
      balances.length = 3 :=
  result_list_length sampleWorld (by decide) rfl

/-- C2: when the address input is empty after trimming, or `isAddress` rejects
it, `checkAllBalances` issues no fetch (no `getBalance`, `balanceOf` or
`decimals` call), calls `showError` exactly once, with a validation message
that it leaves displayed, and never calls `showResults`. -/
theorem invalid_address_no_fetch (w : World)
    (h : jsTrim w.page.address = "" ∨
      w.web3.isAddress (jsTrim w.page.address) = .ok false) :
    (eventsOf checkAllBalances w).filter Event.isFetch = [] ∧
    (shownErrors (eventsOf checkAllBalances w) = ["Please enter a wallet address"] ∨
      shownErrors (eventsOf checkAllBalances w) = ["Invalid Ethereum address format"]) ∧
    (checkAllBalances w).2.page.errorHidden = false ∧
    shownResults (eventsOf checkAllBalances w) = [] := by
  by_cases hne : jsTrim w.page.address = ""
  · have hrun : eventsOf checkAllBalances w = [Event.showError "Please enter a wallet address"] := by
      unfold eventsOf checkAllBalances
      simp [Eff.bind, getWorld, hne, showError, emit, modifyPage]
    have hpage : (checkAllBalances w).2.page.errorHidden = false := by
      unfold checkAllBalances
      simp [Eff.bind, getWorld, hne, showError, emit, modifyPage]
    rw [hrun]
    exact ⟨rfl, Or.inl rfl, hpage, rfl⟩
  · have hinv : w.web3.isAddress (jsTrim w.page.address) = .ok false := by
      rcases h with h | h
      · exact absurd h hne
      · exact h
    have hrun : eventsOf checkAllBalances w =
        [Event.showError "Invalid Ethereum address format"] := by
      unfold eventsOf checkAllBalances
      simp [Eff.bind, getWorld, hne, hinv, showError, emit, modifyPage]
    have hpage : (checkAllBalances w).2.page.errorHidden = false := by
      unfold checkAllBalances
      simp [Eff.bind, getWorld, hne, hinv, showError, emit, modifyPage]
    rw [hrun]
    exact ⟨rfl, Or.inr rfl, hpage, rfl⟩

theorem invalid_address_no_fetch_witness :
    (eventsOf checkAllBalances
      { sampleWorld with page := { samplePage with address := "  not-an-address " } }).filter
        Event.isFetch = [] ∧
    (shownErrors (eventsOf checkAllBalances
        { sampleWorld with page := { samplePage with address := "  not-an-address " } }) =
          ["Please enter a wallet address"] ∨
      shownErrors (eventsOf checkAllBalances
        { sampleWorld with page := { samplePage with address := "  not-an-address " } }) =
          ["Invalid Ethereum address format"]) ∧
    (checkAllBalances
      { sampleWorld with page := { samplePage with address := "  not-an-address " } }).2.page.errorHidden
        = false ∧
    shownResults (eventsOf checkAllBalances
      { sampleWorld with page := { samplePage with address := "  not-an-address " } }) = [] :=
  invalid_address_no_fetch
    { sampleWorld with page := { samplePage with address := "  not-an-address " } }
    (Or.inr rfl)

/-- C3: in a run that passes address validation, the list passed to
`showResults` is the native entry (if the native checkbox is checked), then the
entries of the checked and configured well-known tokens in the order USDT,
USDC, DAI, then the custom-token entry (if both custom fields are non-empty),
in this order. -/
theorem result_list_order (w : World)
    (hne : jsTrim w.page.address ≠ "")
    (hvalid : w.web3.isAddress (jsTrim w.page.address) = .ok true) :
    ["usdt", "usdc", "dai"].map toUpperCase = ["USDT", "USDC", "DAI"] ∧
    ∃ balances kind, shownResults (eventsOf checkAllBalances w) = [balances] ∧
      (kind = "custom" ∨ kind = "error") ∧
      balances.map (fun b => (b.symbol, b.type)) =
        (if w.page.eth = true then [((NETWORKS w.currentNetwork).currency, "native")] else []) ++
        (["usdt", "usdc", "dai"].filter (fun tokenId =>
          decide (w.page.checkbox tokenId = some true) &&
            (TOKEN_CONFIGS w.currentNetwork (toUpperCase tokenId)).isSome)).map
          (fun tokenId => (toUpperCase tokenId, "erc20")) ++
        (if jsTrim w.page.customToken ≠ "" ∧ jsTrim w.page.customSymbol ≠ ""
          then [(jsTrim w.page.customSymbol, kind)] else []) := by
  refine ⟨by decide, collected w, ?_⟩
  have hn : (nativeEntries w (jsTrim w.page.address)).map (fun b => (b.symbol, b.type)) =
      if w.page.eth = true then [((NETWORKS w.currentNetwork).currency, "native")] else [] := by
    unfold nativeEntries; split <;> rfl
  by_cases hreq : jsTrim w.page.customToken ≠ "" ∧ jsTrim w.page.customSymbol ≠ ""
  · cases hr : customRead w.web3 (jsTrim w.page.address) (jsTrim w.page.customToken) with
    | ok text =>
      refine ⟨"custom", shownResults_valid w hne hvalid, Or.inl rfl, ?_⟩
      have hc : customEntries w (jsTrim w.page.address) =
          [⟨jsTrim w.page.customSymbol, text, "custom"⟩] := by
        unfold customEntries customRequested
        simp [hreq.1, hreq.2, hr]
      unfold collected
      rw [List.map_append, List.map_append, hn,
        tokenEntries_tags _ _ _ wellKnown_not_inherited, hc, if_pos hreq,
        List.append_assoc]
      rfl
    | error err =>
      refine ⟨"error", shownResults_valid w hne hvalid, Or.inr rfl, ?_⟩
      have hc : customEntries w (jsTrim w.page.address) =
          [⟨jsTrim w.page.customSymbol, "Error fetching", "error"⟩] := by
        unfold customEntries customRequested
        simp [hreq.1, hreq.2, hr]
      unfold collected
      rw [List.map_append, List.map_append, hn,
        tokenEntries_tags _ _ _ wellKnown_not_inherited, hc, if_pos hreq,
        List.append_assoc]
      rfl
  · refine ⟨"custom", shownResults_valid w hne hvalid, Or.inl rfl, ?_⟩
    have hc : customEntries w (jsTrim w.page.address) = [] := by
      unfold customEntries customRequested
      by_cases h1 : jsTrim w.page.customToken = ""
      · simp [h1]
      · have h2 : jsTrim w.page.customSymbol = "" := by
          by_contra h2; exact hreq ⟨h1, h2⟩
        simp [h2]
    unfold collected
    rw [List.map_append, List.map_append, hn,
        tokenEntries_tags _ _ _ wellKnown_not_inherited, hc, if_neg hreq,
      List.append_assoc]
    rfl

theorem result_list_order_witness :
    ["usdt", "usdc", "dai"].map toUpperCase = ["USDT", "USDC", "DAI"] ∧
    ∃ balances kind, shownResults (eventsOf checkAllBalances sampleWorld) = [balances] ∧
      (kind = "custom" ∨ kind = "error") ∧
      balances.map (fun b => (b.symbol, b.type)) =
        [("MATIC", "native"), ("USDT", "erc20"), ("USDC", "erc20")] :=
  result_list_order sampleWorld (by decide) rfl

/-- C4 (the code departs from it): with a valid address and every fetch of the
chain client throwing, the native entry and the well-known token entries carry
the sentinel balance `Error`, yet their kinds are `native` and `erc20`; no
entry of the list has kind `error`. -/
theorem failed_fetch_keeps_kind :
    shownResults (eventsOf checkAllBalances failingWorld) =
      [[⟨"MATIC", "Error", "native"⟩, ⟨"USDT", "Error", "erc20"⟩,
        ⟨"USDC", "Error", "erc20"⟩]] := by
  rw [shownResults_valid failingWorld (by decide) rfl]
  decide

/-- C5: in a run with a valid wallet address and both custom fields non-empty
whose custom-token read fails (the contract address is rejected, or `balanceOf`
or `decimals` throws), the list passed to `showResults` ends with the single
entry of the custom token, of kind `error` and balance `Error fetching`; it is
the only entry of kind `error`, and the entries before it are the entries of
the run of a client that answers the native and well-known token calls alike
and whose custom read succeeds. -/
theorem custom_failure_isolated (w : World) (c2 : ChainClient)
    (hne : jsTrim w.page.address ≠ "")
    (hvalid : w.web3.isAddress (jsTrim w.page.address) = .ok true)
    (hreq : jsTrim w.page.customToken ≠ "" ∧ jsTrim w.page.customSymbol ≠ "")
    (hfail : w.web3.isAddress (jsTrim w.page.customToken) = .ok false ∨
      (∃ err, w.web3.balanceOf (jsTrim w.page.customToken) (jsTrim w.page.address) =
        .error err) ∨
      (∃ err, w.web3.decimals (jsTrim w.page.customToken) = .error err))
    (hvalid2 : c2.isAddress (jsTrim w.page.address) = .ok true)
    (hnative : c2.getBalance (jsTrim w.page.address) =
      w.web3.getBalance (jsTrim w.page.address))
    (htokens : ∀ tokenSymbol cfg, TOKEN_CONFIGS w.currentNetwork tokenSymbol = some cfg →
      c2.balanceOf cfg.address (jsTrim w.page.address) =
        w.web3.balanceOf cfg.address (jsTrim w.page.address))
    (hok : c2.isAddress (jsTrim w.page.customToken) = .ok true ∧
      ∃ amount d, c2.balanceOf (jsTrim w.page.customToken) (jsTrim w.page.address) =
        .ok amount ∧ c2.decimals (jsTrim w.page.customToken) = .ok d) :
    ∃ others customBalance,
      shownResults (eventsOf checkAllBalances w) =
        [others ++ [⟨jsTrim w.page.customSymbol, "Error fetching", "error"⟩]] ∧
      shownResults (eventsOf checkAllBalances { w with web3 := c2 }) =
        [others ++ [⟨jsTrim w.page.customSymbol, customBalance, "custom"⟩]] ∧
      (∀ b ∈ others, b.type = "native" ∨ b.type = "erc20") ∧
      List.countP (fun b => decide (b.type = "error"))
        (others ++ [BalanceEntry.mk (jsTrim w.page.customSymbol) "Error fetching" "error"]) =
          1 := by
  obtain ⟨hok1, amount, d, hok2, hok3⟩ := hok
  have hread : ∃ err, customRead w.web3 (jsTrim w.page.address) (jsTrim w.page.customToken) =
      .error err := by
    unfold customRead
    cases ha : w.web3.isAddress (jsTrim w.page.customToken) with
    | error err0 => exact ⟨err0, rfl⟩
    | ok accepted =>
      cases accepted
      · exact ⟨"Invalid token contract address", rfl⟩
      · rcases hfail with h | ⟨err, h⟩ | ⟨err, h⟩
        · rw [ha] at h; cases h
        · exact ⟨err, by simp [h]⟩
        · cases hb : w.web3.balanceOf (jsTrim w.page.customToken) (jsTrim w.page.address) with
          | error err2 => exact ⟨err2, by simp⟩
          | ok v => exact ⟨err, by simp [h]⟩
  obtain ⟨err, hread⟩ := hread
  have hread2 : customRead c2 (jsTrim w.page.address) (jsTrim w.page.customToken) =
      .ok (formatUnits amount d) := by
    unfold customRead
    simp [hok1, hok2, hok3]
  have hnat : nativeEntries { w with web3 := c2 } (jsTrim w.page.address) =
      nativeEntries w (jsTrim w.page.address) := by
    unfold nativeEntries nativeText
    simp [hnative]
  have htok : ∀ ids,
      (∀ tokenId ∈ ids, objectPrototypeMembers.contains (toUpperCase tokenId) = false) →
      tokenEntries { w with web3 := c2 } (jsTrim w.page.address) ids =
        tokenEntries w (jsTrim w.page.address) ids := by
    intro ids
    induction ids with
    | nil => intro _; rfl
    | cons tokenId rest ih =>
      intro hids
      have ih := ih (fun x hx => hids x (List.mem_cons_of_mem _ hx))
      have hhead := hids tokenId (List.mem_cons_self _ _)
      unfold tokenEntries tokenRequested
      simp only [ih]
      have ht : tokenText c2 w.currentNetwork (jsTrim w.page.address) (toUpperCase tokenId) =
          tokenText w.web3 w.currentNetwork (jsTrim w.page.address) (toUpperCase tokenId) := by
        unfold tokenText lookupTokenConfig
        cases hc : TOKEN_CONFIGS w.currentNetwork (toUpperCase tokenId) with
        | none => rw [if_neg (by rw [hhead]; decide)]
        | some cfg => simp [htokens _ cfg hc]
      simp only [ht]
  have hcust : customEntries w (jsTrim w.page.address) =
      [⟨jsTrim w.page.customSymbol, "Error fetching", "error"⟩] := by
    unfold customEntries customRequested
    simp [hreq.1, hreq.2, hread]
  have hcust2 : customEntries { w with web3 := c2 } (jsTrim w.page.address) =
      [⟨jsTrim w.page.customSymbol, formatUnits amount d, "custom"⟩] := by
    unfold customEntries customRequested
    simp [hreq.1, hreq.2, hread2]
  have hkinds : ∀ b ∈ nativeEntries w (jsTrim w.page.address) ++
      tokenEntries w (jsTrim w.page.address) ["usdt", "usdc", "dai"],
      b.type = "native" ∨ b.type = "erc20" := by
    intro b hb
    rcases List.mem_append.mp hb with h | h
    · unfold nativeEntries at h
      split at h
      · simp at h; subst h; exact Or.inl rfl
      · simp at h
    · have hall : ∀ ids, ∀ x ∈ tokenEntries w (jsTrim w.page.address) ids, x.type = "erc20" := by
        intro ids
        induction ids with
        | nil => intro x hx; simp [tokenEntries] at hx
        | cons tokenId rest ih =>
          intro x hx
          unfold tokenEntries at hx
          split at hx
          · rcases List.mem_cons.mp hx with rfl | hx
            · rfl
            · exact ih x hx
          · exact ih x hx
      exact Or.inr (hall _ b h)
  refine ⟨nativeEntries w (jsTrim w.page.address) ++
      tokenEntries w (jsTrim w.page.address) ["usdt", "usdc", "dai"],
    formatUnits amount d, ?_, ?_, hkinds, ?_⟩
  · rw [shownResults_valid w hne hvalid]
    unfold collected
    rw [hcust, List.append_assoc]
  · have h2 := shownResults_valid { w with web3 := c2 } hne hvalid2
    rw [h2]
    unfold collected
    simp only [hnat, htok _ wellKnown_not_inherited, hcust2, List.append_assoc]
  · rw [List.countP_append]
    have hzero : List.countP (fun b => decide (b.type = "error"))
        (nativeEntries w (jsTrim w.page.address) ++
          tokenEntries w (jsTrim w.page.address) ["usdt", "usdc", "dai"]) = 0 := by
      rw [List.countP_eq_zero]
      intro b hb
      rcases hkinds b hb with h | h <;> simp [h]
    rw [hzero]
    rfl

theorem custom_failure_isolated_witness :
    ∃ others customBalance,
      shownResults (eventsOf checkAllBalances customFailWorld) =
        [others ++ [⟨"FOO", "Error fetching", "error"⟩]] ∧
      shownResults (eventsOf checkAllBalances { customFailWorld with web3 := sampleClient }) =
        [others ++ [⟨"FOO", customBalance, "custom"⟩]] ∧
      (∀ b ∈ others, b.type = "native" ∨ b.type = "erc20") ∧
      List.countP (fun b => decide (b.type = "error"))
        (others ++ [BalanceEntry.mk "FOO" "Error fetching" "error"]) = 1 :=
  custom_failure_isolated customFailWorld sampleClient (by decide) rfl
    ⟨by decide, by decide⟩ (Or.inr (Or.inr ⟨"rpc", rfl⟩)) rfl rfl
    (fun _ _ _ => rfl) ⟨rfl, 1234567, 6, rfl, rfl⟩

/-- C6 (as stated it fails): on Polygon, where `TOKEN_CONFIGS` has no DAI entry,
a validated run with the DAI checkbox checked shows a list without any entry
for DAI and without any entry of kind `error`. -/
theorem unconfigured_token_no_entry :
    sampleWorld.page.checkbox "dai" = some true ∧
    TOKEN_CONFIGS sampleWorld.currentNetwork (toUpperCase "dai") = none ∧
    shownResults (eventsOf checkAllBalances sampleWorld) =
      [[⟨"MATIC", "0.300000", "native"⟩, ⟨"USDT", "1.234567", "erc20"⟩,
        ⟨"USDC", "1.234567", "erc20"⟩]] := by
  refine ⟨by decide, by decide, ?_⟩
  rw [shownResults_valid sampleWorld (by decide) rfl]
  decide

theorem erc20_entries_configured (w : World) (address : String) (ids : List String)
    (hids : ∀ tokenId ∈ ids, objectPrototypeMembers.contains (toUpperCase tokenId) = false) :
    ∀ b ∈ tokenEntries w address ids,
      b.type = "erc20" ∧ (TOKEN_CONFIGS w.currentNetwork b.symbol).isSome = true := by
  induction ids with
  | nil => intro b hb; simp [tokenEntries] at hb
  | cons tokenId rest ih =>
    have hhead := lookup_truthy w.currentNetwork _ (hids tokenId (List.mem_cons_self _ _))
    have ih := ih (fun x hx => hids x (List.mem_cons_of_mem _ hx))
    intro b hb
    unfold tokenEntries at hb
    by_cases hreq : tokenRequested w tokenId = true
    · rw [if_pos hreq] at hb
      rcases List.mem_cons.mp hb with rfl | hb
      · unfold tokenRequested at hreq
        simp only [Bool.and_eq_true] at hreq
        rw [hhead] at hreq
        exact ⟨rfl, hreq.2⟩
      · exact ih b hb
    · rw [if_neg hreq] at hb
      exact ih b hb

/-- C6 (amended): in a run with a valid wallet address, a checked well-known
token that has no entry in `TOKEN_CONFIGS` for the current network is skipped:
the run ends normally, issues exactly the calls (and so shows exactly the
list) of the run with that checkbox unchecked, and the list has no `erc20`
entry for that symbol. -/
theorem unconfigured_token_skipped (w : World) (tokenId : String)
    (hne : jsTrim w.page.address ≠ "")
    (hvalid : w.web3.isAddress (jsTrim w.page.address) = .ok true)
    (hmem : tokenId ∈ ["usdt", "usdc", "dai"])
    (hchk : w.page.checkbox tokenId = some true)
    (hcfg : TOKEN_CONFIGS w.currentNetwork (toUpperCase tokenId) = none) :
    (checkAllBalances w).1 = .ok () ∧
    eventsOf checkAllBalances w =
      eventsOf checkAllBalances { w with page := w.page.uncheck tokenId } ∧
    ∃ balances, shownResults (eventsOf checkAllBalances w) = [balances] ∧
      ∀ b ∈ balances, b.type = "erc20" → b.symbol ≠ toUpperCase tokenId := by
  refine ⟨(checkAllBalances_valid_run w hne hvalid).1, ?_,
    collected w, shownResults_valid w hne hvalid, ?_⟩
  · have haddr : ({ w with page := w.page.uncheck tokenId } : World).page.address =
        w.page.address := by
      unfold Page.uncheck; split_ifs <;> rfl
    have hne2 : jsTrim ({ w with page := w.page.uncheck tokenId } : World).page.address ≠ "" := by
      rw [haddr]; exact hne
    have hvalid2 : ({ w with page := w.page.uncheck tokenId } : World).web3.isAddress
        (jsTrim ({ w with page := w.page.uncheck tokenId } : World).page.address) =
          .ok true := by
      rw [haddr]; exact hvalid
    have hlist : ({ w with page := w.page.uncheck tokenId } : World).page.balanceList =
        w.page.balanceList := by
      unfold Page.uncheck; split_ifs <;> rfl
    have hfalsy : (lookupTokenConfig w.currentNetwork (toUpperCase tokenId)).truthy = false := by
      rw [lookup_truthy _ _ (wellKnown_not_inherited tokenId hmem), hcfg]
      rfl
    have hrender : renderFailureEvents { w with page := w.page.uncheck tokenId } =
        renderFailureEvents w := by
      unfold renderFailureEvents
      rw [hlist]
    rw [eventsOf_valid w hne hvalid, eventsOf_valid _ hne2 hvalid2, haddr, hrender]
    simp only [List.mem_cons, List.mem_singleton, List.not_mem_nil, or_false] at hmem
    rcases hmem with rfl | rfl | rfl <;>
      simp_all [collected, collectEvents, nativeEntries, nativeStepEvents, tokenEntries,
        tokenLoopEvents, tokenRequested, customEntries, customStepEvents, customRequested,
        Page.checkbox, Page.uncheck]
  · intro b hb htype hsym
    unfold collected at hb
    rcases List.mem_append.mp hb with h | h
    · unfold nativeEntries at h
      split at h
      · simp at h; subst h; simp at htype
      · simp at h
    · rcases List.mem_append.mp h with h | h
      · have hc := (erc20_entries_configured w _ _ wellKnown_not_inherited b h).2
        rw [hsym, hcfg] at hc
        simp at hc
      · unfold customEntries at h
        split at h
        · split at h <;> simp at h <;> subst h <;> simp at htype
        · simp at h

theorem unconfigured_token_skipped_witness :
    (checkAllBalances sampleWorld).1 = .ok () ∧
    eventsOf checkAllBalances sampleWorld =
      eventsOf checkAllBalances { sampleWorld with page := sampleWorld.page.uncheck "dai" } ∧
    ∃ balances, shownResults (eventsOf checkAllBalances sampleWorld) = [balances] ∧
      ∀ b ∈ balances, b.type = "erc20" → b.symbol ≠ toUpperCase "dai" :=
  unconfigured_token_skipped sampleWorld "dai" (by decide) rfl (by decide)
    (by decide) (by decide)

/-- C8 (as stated it fails): `toString` has no entry in `TOKEN_CONFIGS` for
Polygon, yet the lookup finds the member inherited from `Object.prototype`, so
`getTokenBalance` issues a `balanceOf` call on a contract without an address
and, that call throwing, returns `Error` instead of `Not available`. -/
theorem getTokenBalance_inherited_member :
    TOKEN_CONFIGS sampleWorld.currentNetwork "toString" = none ∧
    (getTokenBalance "0x1234567890123456789012345678901234567890" "toString"
      sampleWorld).1 = .ok "Error" ∧
    eventsOf (getTokenBalance "0x1234567890123456789012345678901234567890" "toString")
      sampleWorld =
        [.balanceOfUnset "0x1234567890123456789012345678901234567890",
          .console "error" ["toString balance error:",
            "This contract object has no address set"]] := by
  refine ⟨by decide, rfl, by decide⟩

/-- C8 (amended): for every wallet address and every token symbol that has no
entry in `TOKEN_CONFIGS` for the current network and is not the name of a
member inherited from `Object.prototype`, `getTokenBalance` returns the text
`Not available`, does not throw, and issues no call at all. -/
theorem getTokenBalance_not_available (w : World) (address tokenSymbol : String)
    (h : TOKEN_CONFIGS w.currentNetwork tokenSymbol = none)
    (hown : tokenSymbol ∉ objectPrototypeMembers) :
    getTokenBalance address tokenSymbol w = (.ok "Not available", w) ∧
    eventsOf (getTokenBalance address tokenSymbol) w = [] := by
  have hlookup : lookupTokenConfig w.currentNetwork tokenSymbol = .undefined := by
    unfold lookupTokenConfig
    simp [h, hown]
  have hrun : getTokenBalance address tokenSymbol w = (.ok "Not available", w) := by
    rw [getTokenBalance_run]
    unfold tokenText tokenEvents
    simp [hlookup]
  refine ⟨hrun, ?_⟩
  unfold eventsOf
  rw [hrun]
  simp

theorem getTokenBalance_not_available_witness :
    getTokenBalance "0x1234567890123456789012345678901234567890" "DAI" sampleWorld =
      (.ok "Not available", sampleWorld) ∧
    eventsOf (getTokenBalance "0x1234567890123456789012345678901234567890" "DAI")
      sampleWorld = [] :=
  getTokenBalance_not_available sampleWorld "0x1234567890123456789012345678901234567890"
    "DAI" (by decide) (by decide)

/-- C9 (as stated it fails): with a non-empty address and a `web3` that was
never created, the call `web3.utils.isAddress` of the validation step, which
runs before the `try` block, throws, and the error escapes `checkAllBalances`
without any message shown. -/
theorem validation_throw_escapes :
    jsTrim undefinedWeb3World.page.address ≠ "" ∧
    (checkAllBalances undefinedWeb3World).1 =
      .error "TypeError: Cannot read properties of undefined" ∧
    eventsOf checkAllBalances undefinedWeb3World = [] := by
  refine ⟨by decide, rfl, by decide⟩

/-- C9 (amended): in every run of `checkAllBalances` whose address validation
returns (the address is empty, or `web3.utils.isAddress` answers), whatever the
fetches return or throw, no error escapes `checkAllBalances`; an error thrown
by `showResults` is caught by the top-level `catch` and shown as the generic
failure message; and in every run, if the loading indicator was hidden on
entry it is hidden when `checkAllBalances` ends. -/
theorem checkAllBalances_no_escape (w : World) :
    ((jsTrim w.page.address = "" ∨
        ∃ accepted, w.web3.isAddress (jsTrim w.page.address) = .ok accepted) →
      (checkAllBalances w).1 = .ok ()) ∧
    (jsTrim w.page.address ≠ "" → w.web3.isAddress (jsTrim w.page.address) = .ok true →
      w.page.balanceList = none →
      shownErrors (eventsOf checkAllBalances w) =
        ["Failed to fetch balances. Please try again."]) ∧
    (w.page.loadingHidden = true → (checkAllBalances w).2.page.loadingHidden = true) := by
  refine ⟨?_, ?_, ?_⟩
  · intro h
    by_cases hne : jsTrim w.page.address = ""
    · unfold checkAllBalances
      simp [Eff.bind, getWorld, hne, showError, emit, modifyPage]
    · rcases h with h | ⟨accepted, h⟩
      · exact absurd h hne
      · cases accepted
        · unfold checkAllBalances
          simp [Eff.bind, getWorld, hne, h, showError, emit, modifyPage]
        · exact (checkAllBalances_valid_run w hne h).1
  · intro hne hvalid hlist
    rw [eventsOf_valid w hne hvalid, shownErrors_append, shownErrors_append,
      shownErrors_quiet _ (collectEvents_quiet w)]
    unfold renderFailureEvents
    rw [hlist]
    rfl
  · intro hhidden
    by_cases hne : jsTrim w.page.address = ""
    · unfold checkAllBalances
      simp [Eff.bind, getWorld, hne, showError, emit, modifyPage, hhidden]
    · cases hvalid : w.web3.isAddress (jsTrim w.page.address) with
      | error err =>
        unfold checkAllBalances
        simp [Eff.bind, getWorld, hne, hvalid, Eff.throw, hhidden]
      | ok accepted =>
        cases accepted
        · unfold checkAllBalances
          simp [Eff.bind, getWorld, hne, hvalid, showError, emit, modifyPage, hhidden]
        · exact (checkAllBalances_valid_run w hne hvalid).2.2

theorem checkAllBalances_no_escape_witness :
    (checkAllBalances noListWorld).1 = .ok () ∧
    shownErrors (eventsOf checkAllBalances noListWorld) =
      ["Failed to fetch balances. Please try again."] ∧
    (checkAllBalances noListWorld).2.page.loadingHidden = true :=
  ⟨(checkAllBalances_no_escape noListWorld).1 (Or.inr ⟨true, rfl⟩),
    (checkAllBalances_no_escape noListWorld).2.1 (by decide) rfl rfl,
    (checkAllBalances_no_escape noListWorld).2.2 rfl⟩

/-- C10: from every state, for every network selected on the page,
`updateNetwork` ends normally with the results panel hidden, the error panel
hidden, `currentNetwork` equal to the selected network and `web3` connected to
that network's endpoint. -/
theorem updateNetwork_clears (w : World) :
    (updateNetwork w).1 = .ok () ∧
    (updateNetwork w).2.page.resultsHidden = true ∧
    (updateNetwork w).2.page.errorHidden = true ∧
    (updateNetwork w).2.currentNetwork = w.page.network ∧
    (updateNetwork w).2.web3 = w.connect (NETWORKS w.page.network).rpc := by
  unfold updateNetwork
  simp [Eff.bind, getWorld, hideResults, hideError, emit, modifyPage]

/-! ## Lemmas: rounding to a double -/

theorem roundHalfEven_near (num den : Nat) (h : 0 < den) :
    2 * (roundHalfEven num den * den) ≤ 2 * num + den ∧
    2 * num ≤ 2 * (roundHalfEven num den * den) + den := by
  have hdm := Nat.div_add_mod num den
  have hlt := Nat.mod_lt num h
  have hmul : num / den * den = den * (num / den) := Nat.mul_comm _ _
  unfold roundHalfEven
  simp only
  split_ifs <;> constructor <;> simp only [Nat.add_mul, Nat.one_mul, hmul] <;> omega

theorem floorLog2Aux_spec (fuel : Nat) :
    ∀ n, 0 < n → n ≤ fuel →
      2 ^ floorLog2Aux fuel n ≤ n ∧ n < 2 ^ (floorLog2Aux fuel n + 1) := by
  induction fuel with
  | zero => intro n h0 h1; omega
  | succ fuel ih =>
    intro n h0 h1
    unfold floorLog2Aux
    by_cases h2 : n < 2
    · rw [if_pos h2]
      have : n = 1 := by omega
      subst this
      decide
    · rw [if_neg h2]
      have hpos : 0 < n / 2 := Nat.div_pos (by omega) (by decide)
      have hle : n / 2 ≤ fuel := by omega
      obtain ⟨ha, hb⟩ := ih (n / 2) hpos hle
      constructor
      · rw [pow_succ]; omega
      · rw [pow_succ]; omega

theorem floorLog2_spec (n : Nat) (h : 0 < n) :
    2 ^ floorLog2 n ≤ n ∧ n < 2 ^ (floorLog2 n + 1) :=
  floorLog2Aux_spec n n h (Nat.le_refl n)

theorem scaleBy_spec (n d : Nat) (e : Int) (hd : 0 < d) :
    0 < (scaleBy n d e).2 ∧
    ((scaleBy n d e).1 : ℚ) = (n : ℚ) / d * (2 : ℚ) ^ (-e) * ((scaleBy n d e).2 : ℚ) := by
  have hdq : (d : ℚ) ≠ 0 := by exact_mod_cast hd.ne'
  unfold scaleBy
  by_cases he : 0 ≤ e
  · rw [if_pos he]
    refine ⟨Nat.mul_pos hd (pow_pos (by decide) _), ?_⟩
    obtain ⟨k, rfl⟩ := Int.eq_ofNat_of_zero_le he
    simp only [Int.toNat_ofNat, Nat.cast_mul, Nat.cast_pow, Nat.cast_ofNat, zpow_neg,
      zpow_natCast]
    field_simp
  · rw [if_neg he]
    refine ⟨hd, ?_⟩
    obtain ⟨k, hk⟩ := Int.eq_ofNat_of_zero_le (show 0 ≤ -e by omega)
    rw [hk]
    simp only [Int.toNat_ofNat, Nat.cast_mul, Nat.cast_pow, Nat.cast_ofNat, zpow_natCast]
    field_simp

theorem binaryExponent_spec (n d : Nat) (hn : 0 < n) (hd : 0 < d) :
    (n : ℚ) / d < (2 : ℚ) ^ (binaryExponent n d + 53) ∧
    (-1074 < binaryExponent n d → (2 : ℚ) ^ (binaryExponent n d + 52) ≤ (n : ℚ) / d) ∧
    -1074 ≤ binaryExponent n d := by
  obtain ⟨hn1, hn2⟩ := floorLog2_spec n hn
  obtain ⟨hd1, hd2⟩ := floorLog2_spec d hd
  have hdq : (0 : ℚ) < d := by exact_mod_cast hd
  have two_ne : (2 : ℚ) ≠ 0 := by norm_num
  have hA1 : (2 : ℚ) ^ floorLog2 n ≤ n := by exact_mod_cast hn1
  have hA2 : (n : ℚ) < 2 * (2 : ℚ) ^ floorLog2 n := by
    have : n < 2 * 2 ^ floorLog2 n := by rw [pow_succ] at hn2; omega
    exact_mod_cast this
  have hB1 : (2 : ℚ) ^ floorLog2 d ≤ d := by exact_mod_cast hd1
  have hB2 : (d : ℚ) < 2 * (2 : ℚ) ^ floorLog2 d := by
    have : d < 2 * 2 ^ floorLog2 d := by rw [pow_succ] at hd2; omega
    exact_mod_cast this
  have hBpos : (0 : ℚ) < (2 : ℚ) ^ floorLog2 d := by positivity
  -- the first guess of the exponent
  obtain ⟨e0, he0⟩ : ∃ e0 : ℤ, e0 = (floorLog2 n : Int) - (floorLog2 d : Int) - 53 := ⟨_, rfl⟩
  have hxpos : (0 : ℚ) < (2 : ℚ) ^ e0 := zpow_pos (by norm_num) _
  have hx : (2 : ℚ) ^ e0 * (2 : ℚ) ^ floorLog2 d * 2 ^ 53 = (2 : ℚ) ^ floorLog2 n := by
    rw [he0, zpow_sub₀ two_ne, zpow_sub₀ two_ne, zpow_natCast, zpow_natCast]
    have : ((2 : ℚ) ^ (53 : ℤ)) = 2 ^ 53 := by norm_num
    rw [this]
    field_simp
    ring
  have hr_lt : (n : ℚ) / d < (2 : ℚ) ^ e0 * 2 ^ 54 := by
    rw [div_lt_iff₀ hdq]
    calc (n : ℚ) < 2 * (2 : ℚ) ^ floorLog2 n := hA2
      _ = (2 : ℚ) ^ e0 * 2 ^ 54 * (2 : ℚ) ^ floorLog2 d := by rw [← hx]; ring
      _ ≤ (2 : ℚ) ^ e0 * 2 ^ 54 * d := by
        apply mul_le_mul_of_nonneg_left hB1
        positivity
  have hr_gt : (2 : ℚ) ^ e0 * 2 ^ 52 ≤ (n : ℚ) / d := by
    rw [le_div_iff₀ hdq]
    calc (2 : ℚ) ^ e0 * 2 ^ 52 * d ≤ (2 : ℚ) ^ e0 * 2 ^ 52 * (2 * (2 : ℚ) ^ floorLog2 d) := by
          apply mul_le_mul_of_nonneg_left hB2.le
          positivity
      _ = (2 : ℚ) ^ floorLog2 n := by rw [← hx]; ring
      _ ≤ n := hA1
  -- the test on the scaled quotient
  obtain ⟨hs2, hs1⟩ := scaleBy_spec n d e0 hd
  have hs2q : (0 : ℚ) < ((scaleBy n d e0).2 : ℚ) := by exact_mod_cast hs2
  have htest : (scaleBy n d e0).1 / (scaleBy n d e0).2 < 2 ^ 53 ↔
      (n : ℚ) / d < (2 : ℚ) ^ e0 * 2 ^ 53 := by
    rw [Nat.div_lt_iff_lt_mul hs2]
    have hcast : (scaleBy n d e0).1 < 2 ^ 53 * (scaleBy n d e0).2 ↔
        ((scaleBy n d e0).1 : ℚ) < 2 ^ 53 * ((scaleBy n d e0).2 : ℚ) := by
      constructor
      · intro h; exact_mod_cast h
      · intro h; exact_mod_cast h
    rw [hcast, hs1, mul_lt_mul_right hs2q, zpow_neg, ← div_eq_mul_inv, div_lt_iff₀ hxpos]
    constructor <;> intro h <;> linarith
  have hsplit : ∀ k : ℤ, (2 : ℚ) ^ (e0 + k) = (2 : ℚ) ^ e0 * (2 : ℚ) ^ k :=
    fun k => zpow_add₀ two_ne e0 k
  -- the exponent before clamping
  have hmain : ∃ e1 : ℤ, binaryExponent n d = max e1 (-1074) ∧
      (n : ℚ) / d < (2 : ℚ) ^ (e1 + 53) ∧ (2 : ℚ) ^ (e1 + 52) ≤ (n : ℚ) / d := by
    by_cases ht : (scaleBy n d e0).1 / (scaleBy n d e0).2 < 2 ^ 53
    · refine ⟨e0, ?_, ?_, ?_⟩
      · unfold binaryExponent
        simp only [← he0, if_pos ht]
      · rw [hsplit]; norm_num; exact htest.mp ht
      · rw [hsplit]; norm_num; exact hr_gt
    · refine ⟨e0 + 1, ?_, ?_, ?_⟩
      · unfold binaryExponent
        simp only [← he0, if_neg ht]
      · rw [add_assoc, hsplit]; norm_num; exact hr_lt
      · rw [add_assoc, hsplit]; norm_num
        have := mt htest.mpr ht
        linarith
  obtain ⟨e1, hE, h1, h2⟩ := hmain
  rw [hE]
  refine ⟨?_, ?_, le_max_right _ _⟩
  · calc (n : ℚ) / d < (2 : ℚ) ^ (e1 + 53) := h1
      _ ≤ (2 : ℚ) ^ (max e1 (-1074) + 53) :=
        zpow_le_zpow_right₀ (by norm_num) (by have := le_max_left e1 (-1074); omega)
  · intro hgt
    have : max e1 (-1074) = e1 := by
      rcases max_choice e1 (-1074) with h | h
      · exact h
      · rw [h] at hgt; omega
    rw [this]; exact h2

theorem roundToDouble_spec (n d : Nat) (hn : 0 < n) (hd : 0 < d)
    (hlow : (2 : ℚ) ^ (-1021 : ℤ) ≤ (n : ℚ) / d) (hhigh : (n : ℚ) / d < (2 : ℚ) ^ (1022 : ℤ)) :
    ∃ m e, roundToDouble n d = .finite m e ∧
      |(m : ℚ) * (2 : ℚ) ^ e - (n : ℚ) / d| ≤ (n : ℚ) / d / 2 ^ 53 := by
  obtain ⟨h1, h2, _⟩ := binaryExponent_spec n d hn hd
  obtain ⟨E, hE⟩ : ∃ E : ℤ, E = binaryExponent n d := ⟨_, rfl⟩
  rw [← hE] at h1 h2
  have two_ne : (2 : ℚ) ≠ 0 := by norm_num
  have hxpos : (0 : ℚ) < (2 : ℚ) ^ E := zpow_pos (by norm_num) _
  -- the exponent is in the normal range
  have hElow : -1074 < E := by
    have : (2 : ℚ) ^ (-1021 : ℤ) < (2 : ℚ) ^ (E + 53) := lt_of_le_of_lt hlow h1
    have := (zpow_lt_zpow_iff_right₀ (by norm_num : (1 : ℚ) < 2)).mp this
    omega
  have h2 := h2 hElow
  have hEhigh : E < 970 := by
    have : (2 : ℚ) ^ (E + 52) < (2 : ℚ) ^ (1022 : ℤ) := lt_of_le_of_lt h2 hhigh
    have := (zpow_lt_zpow_iff_right₀ (by norm_num : (1 : ℚ) < 2)).mp this
    omega
  -- the mantissa is within one half of the scaled quotient
  obtain ⟨hs2, hs1⟩ := scaleBy_spec n d E hd
  obtain ⟨hr1, hr2⟩ := roundHalfEven_near (scaleBy n d E).1 (scaleBy n d E).2 hs2
  obtain ⟨M, hM⟩ : ∃ M : ℕ, M = roundHalfEven (scaleBy n d E).1 (scaleBy n d E).2 := ⟨_, rfl⟩
  rw [← hM] at hr1 hr2
  have hs2q : (0 : ℚ) < ((scaleBy n d E).2 : ℚ) := by exact_mod_cast hs2
  have hr1q : 2 * ((M : ℚ) * ((scaleBy n d E).2 : ℚ)) ≤
      2 * ((scaleBy n d E).1 : ℚ) + ((scaleBy n d E).2 : ℚ) := by exact_mod_cast hr1
  have hr2q : 2 * ((scaleBy n d E).1 : ℚ) ≤
      2 * ((M : ℚ) * ((scaleBy n d E).2 : ℚ)) + ((scaleBy n d E).2 : ℚ) := by exact_mod_cast hr2
  rw [hs1] at hr1q hr2q
  have hinv : (2 : ℚ) ^ (-E) * (2 : ℚ) ^ E = 1 := by
    rw [← zpow_add₀ two_ne]; simp
  have hnear1 : (M : ℚ) * (2 : ℚ) ^ E ≤ (n : ℚ) / d + (2 : ℚ) ^ E / 2 := by
    have h : 2 * (M : ℚ) ≤ 2 * ((n : ℚ) / d * (2 : ℚ) ^ (-E)) + 1 := by
      by_contra hc
      push_neg at hc
      have := mul_lt_mul_of_pos_right hc hs2q
      linarith
    have := mul_le_mul_of_nonneg_right h hxpos.le
    have e1 : (2 * ((n : ℚ) / d * (2 : ℚ) ^ (-E)) + 1) * (2 : ℚ) ^ E =
        2 * ((n : ℚ) / d) * ((2 : ℚ) ^ (-E) * (2 : ℚ) ^ E) + (2 : ℚ) ^ E := by ring
    rw [e1, hinv] at this
    linarith
  have hnear2 : (n : ℚ) / d ≤ (M : ℚ) * (2 : ℚ) ^ E + (2 : ℚ) ^ E / 2 := by
    have h : 2 * ((n : ℚ) / d * (2 : ℚ) ^ (-E)) ≤ 2 * (M : ℚ) + 1 := by
      by_contra hc
      push_neg at hc
      have := mul_lt_mul_of_pos_right hc hs2q
      linarith
    have := mul_le_mul_of_nonneg_right h hxpos.le
    have e1 : 2 * ((n : ℚ) / d * (2 : ℚ) ^ (-E)) * (2 : ℚ) ^ E =
        2 * ((n : ℚ) / d) * ((2 : ℚ) ^ (-E) * (2 : ℚ) ^ E) := by ring
    rw [e1, hinv] at this
    linarith
  have hhalf : (2 : ℚ) ^ E / 2 ≤ (n : ℚ) / d / 2 ^ 53 := by
    rw [zpow_add₀ two_ne] at h2
    have : ((2 : ℚ) ^ (52 : ℤ)) = 2 ^ 52 := by norm_num
    rw [this] at h2
    rw [le_div_iff₀ (by positivity)]
    linarith
  have hval : |(M : ℚ) * (2 : ℚ) ^ E - (n : ℚ) / d| ≤ (n : ℚ) / d / 2 ^ 53 := by
    rw [abs_le]
    constructor <;> linarith
  unfold roundToDouble
  rw [if_neg (by omega), ← hE]
  dsimp only
  rw [← hM]
  by_cases h53 : M = 2 ^ 53
  · refine ⟨2 ^ 52, E + 1, ?_, ?_⟩
    · simp only [if_pos h53]
      rw [if_neg (by omega)]
    · have : ((2 ^ 52 : ℕ) : ℚ) * (2 : ℚ) ^ (E + 1) = (M : ℚ) * (2 : ℚ) ^ E := by
        rw [h53, zpow_add₀ two_ne]
        norm_num
        ring
      rw [this]
      exact hval
  · refine ⟨M, E, ?_, hval⟩
    simp only [if_neg h53]
    rw [if_neg (by omega)]

/-! ## Lemmas: decimal digits -/

theorem digitChar_value (k : Nat) (hk : k < 10) :
    (Nat.digitChar k).toNat - 48 = k ∧ (Nat.digitChar k).isDigit = true := by
  interval_cases k <;> exact ⟨by decide, by decide⟩

theorem toDigitsCore_value (fuel : Nat) :
    ∀ (n : Nat) (ds : List Char), n < fuel →
      digitsValue (Nat.toDigitsCore 10 fuel n ds) = n * 10 ^ ds.length + digitsValue ds := by
  induction fuel with
  | zero => intro n ds h; omega
  | succ fuel ih =>
    intro n ds h
    have hmod := (digitChar_value (n % 10) (Nat.mod_lt _ (by decide))).1
    unfold Nat.toDigitsCore
    dsimp only
    by_cases h0 : n / 10 = 0
    · rw [if_pos h0]
      have hn : n % 10 = n := Nat.mod_eq_of_lt (by omega)
      simp only [digitsValue]
      rw [hmod, hn]
    · rw [if_neg h0, ih (n / 10) _ (by omega)]
      simp only [digitsValue, List.length_cons, hmod, pow_succ]
      have key : n * 10 ^ ds.length =
          n / 10 * (10 ^ ds.length * 10) + n % 10 * 10 ^ ds.length := by
        conv_lhs => rw [← Nat.div_add_mod n 10]
        ring
      omega

theorem toDigitsCore_isDigit (fuel : Nat) :
    ∀ (n : Nat) (ds : List Char), (∀ c ∈ ds, c.isDigit = true) →
      ∀ c ∈ Nat.toDigitsCore 10 fuel n ds, c.isDigit = true := by
  induction fuel with
  | zero => intro n ds h c hc; exact h c hc
  | succ fuel ih =>
    intro n ds h
    have hmod := (digitChar_value (n % 10) (Nat.mod_lt _ (by decide))).2
    have hcons : ∀ c ∈ Nat.digitChar (n % 10) :: ds, c.isDigit = true := by
      intro c hc
      rcases List.mem_cons.mp hc with rfl | hc
      · exact hmod
      · exact h c hc
    unfold Nat.toDigitsCore
    dsimp only
    by_cases h0 : n / 10 = 0
    · rw [if_pos h0]; exact hcons
    · rw [if_neg h0]; exact ih _ _ hcons

theorem toDigitsCore_length_pos (fuel : Nat) :
    ∀ (n : Nat) (ds : List Char),
      ds.length + 1 ≤ (Nat.toDigitsCore 10 (fuel + 1) n ds).length := by
  induction fuel with
  | zero =>
    intro n ds
    unfold Nat.toDigitsCore
    dsimp only
    split_ifs <;> simp [Nat.toDigitsCore]
  | succ fuel ih =>
    intro n ds
    unfold Nat.toDigitsCore
    dsimp only
    by_cases h0 : n / 10 = 0
    · rw [if_pos h0]; simp
    · rw [if_neg h0]
      have := ih (n / 10) (Nat.digitChar (n % 10) :: ds)
      simp only [List.length_cons] at this
      omega

theorem digitsValue_zeros (k : Nat) (ds : List Char) :
    digitsValue (List.replicate k '0' ++ ds) = digitsValue ds := by
  induction k with
  | zero => rfl
  | succ k ih =>
    rw [List.replicate_succ, List.cons_append]
    simp only [digitsValue, ih]
    have : ('0' : Char).toNat - 48 = 0 := by decide
    rw [this]; simp

/-- The text of `toFixed(6)` for a double below `10 ^ 21`: an integer part, a
point and six digits, which together denote the nearest integer to one
million times the double. -/
theorem toFixed_six (m : Nat) (e : Int) (h : geNat m e (10 ^ 21) = false) :
    ∃ ip fp, toFixed (.finite m e) 6 = String.mk (ip ++ '.' :: fp) ∧
      ip ≠ [] ∧ fp.length = 6 ∧ (∀ c ∈ ip ++ fp, c.isDigit = true) ∧
      digitsValue (ip ++ fp) = nearestScaled m e 6 := by
  obtain ⟨N, hN⟩ : ∃ N, N = nearestScaled m e 6 := ⟨_, rfl⟩
  obtain ⟨ds, hds⟩ : ∃ ds, ds = (if N = 0 then ['0'] else Nat.toDigits 10 N) := ⟨_, rfl⟩
  have hds_val : digitsValue ds = N := by
    rw [hds]
    split_ifs with h0
    · rw [h0]; decide
    · unfold Nat.toDigits
      rw [toDigitsCore_value _ _ _ (Nat.lt_succ_self N)]
      simp [digitsValue]
  have hds_dig : ∀ c ∈ ds, c.isDigit = true := by
    rw [hds]
    split_ifs with h0
    · intro c hc
      simp only [List.mem_singleton] at hc
      rw [hc]; decide
    · unfold Nat.toDigits
      exact toDigitsCore_isDigit _ _ _ (by simp)
  have hds_len : 1 ≤ ds.length := by
    rw [hds]
    split_ifs with h0
    · simp
    · unfold Nat.toDigits
      have := toDigitsCore_length_pos N N []
      simpa using this
  obtain ⟨ds2, hds2⟩ : ∃ ds2, ds2 =
      (if ds.length ≤ 6 then List.replicate (6 + 1 - ds.length) '0' ++ ds else ds) := ⟨_, rfl⟩
  have hds2_val : digitsValue ds2 = N := by
    rw [hds2]
    split_ifs
    · rw [digitsValue_zeros, hds_val]
    · exact hds_val
  have hds2_dig : ∀ c ∈ ds2, c.isDigit = true := by
    rw [hds2]
    split_ifs
    · intro c hc
      rcases List.mem_append.mp hc with hc | hc
      · rw [List.eq_of_mem_replicate hc]; decide
      · exact hds_dig c hc
    · exact hds_dig
  have hds2_len : 7 ≤ ds2.length := by
    rw [hds2]
    split_ifs with hle
    · simp only [List.length_append, List.length_replicate]; omega
    · omega
  refine ⟨ds2.take (ds2.length - 6), ds2.drop (ds2.length - 6), ?_, ?_, ?_, ?_, ?_⟩
  · unfold toFixed
    simp only [h, ← hN, ← hds, ← hds2]
    simp
  · intro hnil
    have := congrArg List.length hnil
    simp only [List.length_take, List.length_nil] at this
    omega
  · simp only [List.length_drop]; omega
  · rw [List.take_append_drop]; exact hds2_dig
  · rw [List.take_append_drop, hds2_val, hN]

/-! ## Lemmas: scaling and formatting a token amount -/

set_option maxRecDepth 20000 in
theorem pow10_exact (d : Nat) (hd : d ≤ 22) :
    ∃ m e, pow10 d = .finite m e ∧ 0 < m ∧ (m : ℚ) * (2 : ℚ) ^ e = (10 : ℚ) ^ d := by
  interval_cases d
  · exact ⟨4503599627370496, -52, by decide, by decide, by norm_num⟩
  · exact ⟨5629499534213120, -49, by decide, by decide, by norm_num⟩
  · exact ⟨7036874417766400, -46, by decide, by decide, by norm_num⟩
  · exact ⟨8796093022208000, -43, by decide, by decide, by norm_num⟩
  · exact ⟨5497558138880000, -39, by decide, by decide, by norm_num⟩
  · exact ⟨6871947673600000, -36, by decide, by decide, by norm_num⟩
  · exact ⟨8589934592000000, -33, by decide, by decide, by norm_num⟩
  · exact ⟨5368709120000000, -29, by decide, by decide, by norm_num⟩
  · exact ⟨6710886400000000, -26, by decide, by decide, by norm_num⟩
  · exact ⟨8388608000000000, -23, by decide, by decide, by norm_num⟩
  · exact ⟨5242880000000000, -19, by decide, by decide, by norm_num⟩
  · exact ⟨6553600000000000, -16, by decide, by decide, by norm_num⟩
  · exact ⟨8192000000000000, -13, by decide, by decide, by norm_num⟩
  · exact ⟨5120000000000000, -9, by decide, by decide, by norm_num⟩
  · exact ⟨6400000000000000, -6, by decide, by decide, by norm_num⟩
  · exact ⟨8000000000000000, -3, by decide, by decide, by norm_num⟩
  · exact ⟨5000000000000000, 1, by decide, by decide, by norm_num⟩
  · exact ⟨6250000000000000, 4, by decide, by decide, by norm_num⟩
  · exact ⟨7812500000000000, 7, by decide, by decide, by norm_num⟩
  · exact ⟨4882812500000000, 11, by decide, by decide, by norm_num⟩
  · exact ⟨6103515625000000, 14, by decide, by decide, by norm_num⟩
  · exact ⟨7629394531250000, 17, by decide, by decide, by norm_num⟩
  · exact ⟨4768371582031250, 21, by decide, by decide, by norm_num⟩

theorem nearestScaled_near (m : Nat) (e : Int) :
    |((nearestScaled m e 6 : ℕ) : ℚ) - (m : ℚ) * (2 : ℚ) ^ e * 10 ^ 6| ≤ 1 / 2 := by
  unfold nearestScaled
  by_cases he : 0 ≤ e
  · rw [if_pos he]
    obtain ⟨k, rfl⟩ := Int.eq_ofNat_of_zero_le he
    simp only [Int.toNat_ofNat, zpow_natCast]
    push_cast
    norm_num
  · rw [if_neg he]
    obtain ⟨k, hk⟩ := Int.eq_ofNat_of_zero_le (show 0 ≤ -e by omega)
    have he2 : e = -(k : ℤ) := by omega
    rw [hk, he2]
    simp only [Int.toNat_ofNat, zpow_neg, zpow_natCast]
    have hBpos : 0 < 2 * 2 ^ k := by positivity
    obtain ⟨N, hN⟩ : ∃ N, N = (2 * (m * 10 ^ 6) + 2 ^ k) / (2 * 2 ^ k) := ⟨_, rfl⟩
    rw [← hN]
    have h1 : N * (2 * 2 ^ k) ≤ 2 * (m * 10 ^ 6) + 2 ^ k := by
      rw [hN]; exact Nat.div_mul_le_self _ _
    have h2 : 2 * (m * 10 ^ 6) + 2 ^ k < (N + 1) * (2 * 2 ^ k) := by
      rw [hN]
      have := Nat.lt_succ_self ((2 * (m * 10 ^ 6) + 2 ^ k) / (2 * 2 ^ k))
      exact (Nat.div_lt_iff_lt_mul hBpos).mp this
    have h1q : (N : ℚ) * (2 * 2 ^ k) ≤ 2 * ((m : ℚ) * 10 ^ 6) + 2 ^ k := by exact_mod_cast h1
    have h2q : 2 * ((m : ℚ) * 10 ^ 6) + 2 ^ k < ((N : ℚ) + 1) * (2 * 2 ^ k) := by
      exact_mod_cast h2
    have hpos : (0 : ℚ) < 2 ^ k := by positivity
    have hx : (m : ℚ) * ((2 : ℚ) ^ k)⁻¹ * 10 ^ 6 * 2 ^ k = (m : ℚ) * 10 ^ 6 := by
      field_simp
    rw [abs_le]
    constructor
    · by_contra hc
      push_neg at hc
      have := mul_lt_mul_of_pos_right hc hpos
      nlinarith
    · by_contra hc
      push_neg at hc
      have := mul_lt_mul_of_pos_right hc hpos
      nlinarith

theorem geNat_false (m : Nat) (e : Int) (b : Nat) (h : (m : ℚ) * (2 : ℚ) ^ e < b) :
    geNat m e b = false := by
  unfold geNat
  by_cases he : 0 ≤ e
  · rw [if_pos he]
    obtain ⟨k, rfl⟩ := Int.eq_ofNat_of_zero_le he
    simp only [Int.toNat_ofNat, zpow_natCast] at h ⊢
    have : m * 2 ^ k < b := by exact_mod_cast h
    simp only [decide_eq_false_iff_not, not_le]
    exact this
  · rw [if_neg he]
    obtain ⟨k, hk⟩ := Int.eq_ofNat_of_zero_le (show 0 ≤ -e by omega)
    have he2 : e = -(k : ℤ) := by omega
    rw [hk]
    rw [he2] at h
    simp only [Int.toNat_ofNat, zpow_neg, zpow_natCast] at h ⊢
    have hpos : (0 : ℚ) < 2 ^ k := by positivity
    have hq : (m : ℚ) < (b : ℚ) * 2 ^ k := by
      rw [← div_eq_mul_inv, div_lt_iff₀ hpos] at h
      exact h
    have : m < b * 2 ^ k := by exact_mod_cast hq
    simp only [decide_eq_false_iff_not, not_le]
    exact this

theorem div_finite (m1 : Nat) (e1 : Int) (m2 : Nat) (e2 : Int) (h : m2 ≠ 0) :
    (JsNumber.finite m1 e1).div (.finite m2 e2) =
      roundToDouble (scaleBy m1 m2 (e2 - e1)).1 (scaleBy m1 m2 (e2 - e1)).2 := by
  simp [JsNumber.div, h]

theorem tokenQuotient_near (amount d : Nat) (hd : d ≤ 22) (ha : amount < 2 ^ 256) :
    ∃ m e, tokenQuotient amount d = .finite m e ∧
      |(m : ℚ) * (2 : ℚ) ^ e - (amount : ℚ) / 10 ^ d| ≤ (amount : ℚ) / 10 ^ d / 2 ^ 51 := by
  obtain ⟨m2, e2, hpow, hm2, hD⟩ := pow10_exact d hd
  have two_ne : (2 : ℚ) ≠ 0 := by norm_num
  have hDpos : (0 : ℚ) < (10 : ℚ) ^ d := by positivity
  have hDle : (10 : ℚ) ^ d ≤ 10 ^ 22 := pow_le_pow_right₀ (by norm_num) hd
  have hD1 : (1 : ℚ) ≤ (10 : ℚ) ^ d := one_le_pow₀ (by norm_num)
  have hsmall : (2 : ℚ) ^ (-1021 : ℤ) ≤ (2 : ℚ) ^ (-75 : ℤ) :=
    zpow_le_zpow_right₀ (by norm_num) (by norm_num)
  have hbig : (2 : ℚ) ^ (257 : ℤ) ≤ (2 : ℚ) ^ (1022 : ℤ) :=
    zpow_le_zpow_right₀ (by norm_num) (by norm_num)
  unfold tokenQuotient parseFloatNat
  rw [hpow]
  by_cases h0 : amount = 0
  · subst h0
    refine ⟨0, -1074, ?_, by simp⟩
    have hz : ∀ n : Nat, roundToDouble 0 n = .finite 0 (-1074) := by
      intro n; unfold roundToDouble; simp
    rw [hz, div_finite _ _ _ _ (by omega)]
    have hs : (scaleBy 0 m2 (e2 - -1074)).1 = 0 := by
      unfold scaleBy; split_ifs <;> simp
    rw [hs, hz]
  · have hapos : 0 < amount := Nat.pos_of_ne_zero h0
    have haq : (1 : ℚ) ≤ (amount : ℚ) := by exact_mod_cast hapos
    have haq2 : (amount : ℚ) < 2 ^ 256 := by exact_mod_cast ha
    -- parseFloat
    obtain ⟨m1, e1, hparse, hp⟩ := roundToDouble_spec amount 1 hapos (by decide)
      (by
        have : (2 : ℚ) ^ (-75 : ℤ) ≤ 1 := by norm_num
        simp only [Nat.cast_one, div_one]; linarith)
      (by
        have : (2 : ℚ) ^ (256 : ℕ) < (2 : ℚ) ^ (257 : ℤ) := by norm_num
        simp only [Nat.cast_one, div_one]; linarith)
    simp only [Nat.cast_one, div_one] at hp
    rw [hparse]
    obtain ⟨p, hpdef⟩ : ∃ p : ℚ, p = (m1 : ℚ) * (2 : ℚ) ^ e1 := ⟨_, rfl⟩
    rw [← hpdef] at hp
    obtain ⟨hp1, hp2⟩ := abs_le.mp hp
    have hu : (amount : ℚ) / 2 ^ 53 ≤ (amount : ℚ) / 2 := by
      have h : (amount : ℚ) / 2 ^ 53 = (amount : ℚ) / 2 * (1 / 2 ^ 52) := by ring
      rw [h]
      exact mul_le_of_le_one_right (by positivity) (by norm_num)
    have hp_lo : (1 : ℚ) / 2 ≤ p := by linarith
    have hp_hi : p ≤ 2 * (amount : ℚ) := by linarith
    have hm1 : 0 < m1 := by
      rcases Nat.eq_zero_or_pos m1 with h | h
      · rw [h] at hpdef; simp at hpdef; linarith
      · exact h
    -- the division
    obtain ⟨hs2, hs1⟩ := scaleBy_spec m1 m2 (e2 - e1) hm2
    obtain ⟨s1, hs1def⟩ : ∃ s1, s1 = (scaleBy m1 m2 (e2 - e1)).1 := ⟨_, rfl⟩
    obtain ⟨s2, hs2def⟩ : ∃ s2, s2 = (scaleBy m1 m2 (e2 - e1)).2 := ⟨_, rfl⟩
    rw [← hs1def, ← hs2def] at hs1
    rw [← hs2def] at hs2
    have hs2q : (0 : ℚ) < (s2 : ℚ) := by exact_mod_cast hs2
    have hm2q : (0 : ℚ) < (m2 : ℚ) := by exact_mod_cast hm2
    have hx2 : (0 : ℚ) < (2 : ℚ) ^ e2 := zpow_pos (by norm_num) _
    have hratio : (s1 : ℚ) / s2 = p / 10 ^ d := by
      rw [hs1, ← hD, hpdef, neg_sub, zpow_sub₀ two_ne]
      field_simp
      ring
    have hpD_lo : (2 : ℚ) ^ (-1021 : ℤ) ≤ p / 10 ^ d := by
      rw [le_div_iff₀ hDpos]
      have h1 : (2 : ℚ) ^ (-75 : ℤ) * 10 ^ 22 ≤ 1 / 2 := by norm_num
      calc (2 : ℚ) ^ (-1021 : ℤ) * 10 ^ d
          ≤ (2 : ℚ) ^ (-75 : ℤ) * 10 ^ d := mul_le_mul_of_nonneg_right hsmall (by positivity)
        _ ≤ (2 : ℚ) ^ (-75 : ℤ) * 10 ^ 22 := mul_le_mul_of_nonneg_left hDle (by positivity)
        _ ≤ 1 / 2 := h1
        _ ≤ p := hp_lo
    have hpD_hi : p / 10 ^ d < (2 : ℚ) ^ (1022 : ℤ) := by
      rw [div_lt_iff₀ hDpos]
      have h1 : (2 : ℚ) * 2 ^ (256 : ℕ) ≤ (2 : ℚ) ^ (257 : ℤ) := by norm_num
      have h0 : p < (2 : ℚ) * 2 ^ (256 : ℕ) := by linarith
      calc p < (2 : ℚ) * 2 ^ (256 : ℕ) := h0
        _ ≤ (2 : ℚ) ^ (257 : ℤ) := h1
        _ ≤ (2 : ℚ) ^ (1022 : ℤ) := hbig
        _ = (2 : ℚ) ^ (1022 : ℤ) * 1 := (mul_one _).symm
        _ ≤ (2 : ℚ) ^ (1022 : ℤ) * 10 ^ d := mul_le_mul_of_nonneg_left hD1 (by positivity)
    have hs1pos : 0 < s1 := by
      rcases Nat.eq_zero_or_pos s1 with h | h
      · rw [h] at hratio
        simp only [Nat.cast_zero, zero_div] at hratio
        have hpos : (0 : ℚ) < p / 10 ^ d := div_pos (by linarith only [hp_lo]) hDpos
        rw [← hratio] at hpos
        exact absurd hpos (lt_irrefl _)
      · exact h
    obtain ⟨m, e, hq, hqerr⟩ := roundToDouble_spec s1 s2 hs1pos hs2
      (by rw [hratio]; exact hpD_lo) (by rw [hratio]; exact hpD_hi)
    rw [hratio] at hqerr
    refine ⟨m, e, ?_, ?_⟩
    · rw [div_finite _ _ _ _ (by omega), ← hs1def, ← hs2def]
      exact hq
    · obtain ⟨hq1, hq2⟩ := abs_le.mp hqerr
      obtain ⟨r, hr⟩ : ∃ r : ℚ, r = (amount : ℚ) / 10 ^ d := ⟨_, rfl⟩
      have hrpos : 0 ≤ r := by rw [hr]; positivity
      have hpr1 : p / 10 ^ d ≤ r + r / 2 ^ 53 := by
        have h1 : p / 10 ^ d ≤ ((amount : ℚ) + (amount : ℚ) / 2 ^ 53) / 10 ^ d :=
          div_le_div_of_nonneg_right (by linarith only [hp2]) hDpos.le
        have h2 : ((amount : ℚ) + (amount : ℚ) / 2 ^ 53) / 10 ^ d = r + r / 2 ^ 53 := by
          rw [hr]; ring
        linarith only [h1, h2]
      have hpr2 : r - r / 2 ^ 53 ≤ p / 10 ^ d := by
        have h1 : ((amount : ℚ) - (amount : ℚ) / 2 ^ 53) / 10 ^ d ≤ p / 10 ^ d :=
          div_le_div_of_nonneg_right (by linarith only [hp1]) hDpos.le
        have h2 : ((amount : ℚ) - (amount : ℚ) / 2 ^ 53) / 10 ^ d = r - r / 2 ^ 53 := by
          rw [hr]; ring
        linarith only [h1, h2]
      rw [← hr, abs_le]
      constructor <;> linarith only [hq1, hq2, hpr1, hpr2, hrpos]

set_option maxRecDepth 20000 in
/-- C7 (as stated it fails): the on-chain amount `10 ^ 21`, which is in the
uint256 range, with 0 decimals is formatted as `1e+21`, a text without a
decimal point; and the amount `2 ^ 53 + 1` with 0 decimals is formatted as
`9007199254740992.000000`, which is not the rendering of the amount. -/
theorem formatUnits_exponential :
    10 ^ 21 < 2 ^ 256 ∧ formatUnits (10 ^ 21) 0 = "1e+21" ∧
    formatUnits (2 ^ 53 + 1) 0 = "9007199254740992.000000" := by
  refine ⟨by decide, by decide, by decide⟩

set_option maxRecDepth 20000 in
/-- C7 (amended): for every decimals value `d ≤ 22` and every on-chain amount
with `amount / 10 ^ d ≤ 10 ^ 21 - 10 ^ 6`, the balance string computed by
`getTokenBalance` and `getCustomTokenBalance` is an integer part, a point and
exactly six digits, and the number it denotes differs from `amount / 10 ^ d`
by at most `0.0000005 + (amount / 10 ^ d) / 2 ^ 51` (rounding at six places
plus the rounding of the double-precision arithmetic); amount 1000000 with 6
decimals is formatted as `1.000000` and amount 1 with 18 decimals as
`0.000000`. -/
theorem formatUnits_fixed :
    (∀ amount d : Nat, d ≤ 22 → amount ≤ 999999999999999000000 * 10 ^ d →
      ∃ ip fp, formatUnits amount d = String.mk (ip ++ '.' :: fp) ∧
        ip ≠ [] ∧ fp.length = 6 ∧ (∀ c ∈ ip ++ fp, c.isDigit = true) ∧
        |(digitsValue (ip ++ fp) : ℚ) / 10 ^ 6 - (amount : ℚ) / 10 ^ d| ≤
          1 / (2 * 10 ^ 6) + (amount : ℚ) / 10 ^ d / 2 ^ 51) ∧
    formatUnits 1000000 6 = "1.000000" ∧ formatUnits 1 18 = "0.000000" := by
  refine ⟨?_, by decide, by decide⟩
  intro amount d hd ha
  have hDpos : (0 : ℚ) < (10 : ℚ) ^ d := by positivity
  have h256 : amount < 2 ^ 256 := by
    have h1 : 10 ^ d ≤ 10 ^ 22 := Nat.pow_le_pow_right (by decide) hd
    have h2 : 999999999999999000000 * 10 ^ d ≤ 999999999999999000000 * 10 ^ 22 :=
      Nat.mul_le_mul_left _ h1
    have h3 : 999999999999999000000 * 10 ^ 22 < 2 ^ 256 := by decide
    omega
  obtain ⟨m, e, hq, hqerr⟩ := tokenQuotient_near amount d hd h256
  obtain ⟨r, hr⟩ : ∃ r : ℚ, r = (amount : ℚ) / 10 ^ d := ⟨_, rfl⟩
  obtain ⟨q, hqdef⟩ : ∃ q : ℚ, q = (m : ℚ) * (2 : ℚ) ^ e := ⟨_, rfl⟩
  rw [← hr, ← hqdef] at hqerr
  obtain ⟨hq1, hq2⟩ := abs_le.mp hqerr
  have hrpos : 0 ≤ r := by rw [hr]; positivity
  have hrle : r ≤ 999999999999999000000 := by
    rw [hr, div_le_iff₀ hDpos]
    exact_mod_cast ha
  have hqlt : q < ((10 ^ 21 : ℕ) : ℚ) := by
    push_cast
    linarith only [hq2, hrle, hrpos]
  rw [hqdef] at hqlt
  obtain ⟨ip, fp, htext, hip, hfp, hdig, hval⟩ := toFixed_six m e (geNat_false m e _ hqlt)
  refine ⟨ip, fp, ?_, hip, hfp, hdig, ?_⟩
  · unfold formatUnits
    rw [hq]; exact htext
  · rw [hval, ← hr]
    obtain ⟨N, hN⟩ : ∃ N : ℕ, N = nearestScaled m e 6 := ⟨_, rfl⟩
    have hnear := nearestScaled_near m e
    rw [← hN, ← hqdef] at hnear
    rw [← hN]
    obtain ⟨hn1, hn2⟩ := abs_le.mp hnear
    obtain ⟨x, hx⟩ : ∃ x : ℚ, x = (N : ℚ) / 10 ^ 6 := ⟨_, rfl⟩
    have hNx : (N : ℚ) = x * 10 ^ 6 := by rw [hx]; field_simp
    rw [← hx]
    rw [hNx] at hn1 hn2
    rw [abs_le]
    constructor
    · linarith only [hn1, hq1]
    · linarith only [hn2, hq2]

theorem formatUnits_fixed_witness :
    ∃ ip fp, formatUnits 1500000000000000000 18 = String.mk (ip ++ '.' :: fp) ∧
      ip ≠ [] ∧ fp.length = 6 ∧ (∀ c ∈ ip ++ fp, c.isDigit = true) ∧
      |(digitsValue (ip ++ fp) : ℚ) / 10 ^ 6 - ((1500000000000000000 : ℕ) : ℚ) / 10 ^ 18| ≤
        1 / (2 * 10 ^ 6) + ((1500000000000000000 : ℕ) : ℚ) / 10 ^ 18 / 2 ^ 51 :=
  formatUnits_fixed.1 1500000000000000000 18 (by decide) (by decide)

end TokenChecker
